import Mathlib

set_option maxRecDepth 8000

/-! Verification development for the pythonvCard4 vCard 4.0 codec
    (src/pythonvCard4/pythonvCard4.py). Python strings are modelled as
    lists of characters (`Text`), Python `None`/values as `Option`,
    raised exceptions as `Except VErr`. Definitions mirror the source
    line by line; fueled recursion is used where the Python loop's
    termination is not structural, with `none` modelling divergence. -/

abbrev Text := List Char

/-- Coerce a Lean string literal to the `List Char` model. -/
def T (s : String) : Text := s.toList

/-- ASCII model of Python `str.lower` on one character. No Unicode
    character lower-cases to an ASCII uppercase letter, so lookups of
    uppercase keys against lowered keys behave as in Python. -/
def lowerChar (c : Char) : Char :=
  if 'A' ≤ c ∧ c ≤ 'Z' then Char.ofNat (c.toNat + 32) else c

/-- ASCII model of Python `str.upper` on one character. -/
def upperChar (c : Char) : Char :=
  if 'a' ≤ c ∧ c ≤ 'z' then Char.ofNat (c.toNat - 32) else c

/-- Model of Python `str.lower` (ASCII range). -/
def pyLower (s : Text) : Text := s.map lowerChar

/-- Model of Python `str.upper` (ASCII range). -/
def pyUpper (s : Text) : Text := s.map upperChar

/-- Does `pat` occur at the head of `s`? -/
def startsWithSeq : Text → Text → Bool
  | [], _ => true
  | _ :: _, [] => false
  | p :: ps, c :: cs => p = c && startsWithSeq ps cs

/-- Fueled engine for Python `str.replace`: scan left to right, replace
    non-overlapping occurrences of `pat` by `rep`. Each step consumes at
    least one character, so fuel equal to the input length is exact. -/
def replFuel (pat rep : Text) : Nat → Text → Text
  | 0, s => s
  | fuel + 1, s =>
    if pat ≠ [] ∧ startsWithSeq pat s = true then
      rep ++ replFuel pat rep fuel (s.drop pat.length)
    else
      match s with
      | [] => []
      | c :: t => c :: replFuel pat rep fuel t

/-- Model of Python `s.replace(pat, rep)` for nonempty `pat`. -/
def pyReplace (pat rep s : Text) : Text := replFuel pat rep s.length s

/-- `escape_text` from the source: the four `str.replace` passes in
    source order (backslash, semicolon, comma, newline). -/
def escape_text (s : Text) : Text :=
  pyReplace (T ("\n")) (T ("\\n"))
    (pyReplace (T (",")) (T ("\\,"))
      (pyReplace (T (";")) (T ("\\;"))
        (pyReplace (T ("\\")) (T ("\\\\")) s)))

/-- `unescape_text` from the source: the four `str.replace` passes in
    source order (backslash-n, backslash-comma, backslash-semicolon,
    double-backslash). -/
def unescape_text (s : Text) : Text :=
  pyReplace (T ("\\\\")) (T ("\\"))
    (pyReplace (T ("\\;")) (T (";"))
      (pyReplace (T ("\\,")) (T (","))
        (pyReplace (T ("\\n")) (T ("\n")) s)))

/-- Split at the first occurrence of `sep`; `none` when `sep` is absent.
    Models `s.split(sep, 1)` guarded by a `sep in s` test. -/
def splitFirst (sep : Char) : Text → Option (Text × Text)
  | [] => none
  | c :: rest =>
    if c = sep then some ([], rest)
    else (splitFirst sep rest).map (fun p => (c :: p.1, p.2))

/-- Model of Python `s.split(sep)` for a single-character separator:
    always returns at least one (possibly empty) part. -/
def pySplit (sep : Char) : Text → List Text
  | [] => [[]]
  | c :: rest =>
    let r := pySplit sep rest
    if c = sep then [] :: r else (c :: r.headD []) :: r.tail

/-- Model of Python `sep.join(parts)`. -/
def pyJoin (sep : Text) : List Text → Text
  | [] => []
  | [x] => x
  | x :: y :: rest => x ++ sep ++ pyJoin sep (y :: rest)

/-- Fueled model of the `while len(line) > limit` loop of `fold_line`.
    `none` models non-termination of the Python loop (for `limit ≤ 1`
    the rewritten line never gets shorter). Each loop iteration strictly
    shortens the line when `limit ≥ 2`, so fuel `line.length` suffices
    exactly when the Python loop terminates. -/
def foldFuel (limit : Nat) : Nat → Text → Option (List Text)
  | fuel, line =>
    if limit < line.length then
      match fuel with
      | 0 => none
      | f + 1 =>
        (foldFuel limit f (' ' :: line.drop limit)).map
          (fun r => line.take limit :: r)
    else some [line]

/-- `fold_line` from the source; `none` models a non-terminating call. -/
def fold_line (line : Text) (limit : Nat) : Option (List Text) :=
  foldFuel limit line.length line

/-- `fold_line` at the default limit 75, where the loop always
    terminates (see `fold_line_75_eq`); the `getD` default is dead. -/
def fold75 (line : Text) : List Text := (fold_line line 75).getD [line]

/-- Is the first character a space or tab (Python
    `line.startswith((' ', '\t'))`, false on the empty string)? -/
def contHead (l : Text) : Prop := l.headD 'x' = ' ' ∨ l.headD 'x' = '\t'

instance (l : Text) : Decidable (contHead l) := by
  unfold contHead; infer_instance

/-- The accumulator loop of `unfold_lines`: `cur` is the last logical
    line built so far (the only one a continuation can extend). -/
def collectCont (cur : Text) : List Text → List Text
  | [] => [cur]
  | l :: rest =>
    if contHead l then collectCont (cur ++ l.tail) rest
    else cur :: collectCont l rest

/-- `unfold_lines` from the source. A first line starting with space or
    tab is appended as a fresh logical line because `unfolded` is still
    empty, exactly as in the Python code. -/
def unfold_lines : List Text → List Text
  | [] => []
  | l :: rest => collectCont l rest

/-- Line-break characters of Python `str.splitlines` other than CR
    (which the splitter treats specially for CRLF). -/
def isLB (c : Char) : Bool :=
  c = '\n' || c = '\x0b' || c = '\x0c' ||
  c = '\x1c' || c = '\x1d' || c = '\x1e' || c = '\x85' ||
  c = '\u2028' || c = '\u2029'

/-- Worker for `splitlines`: `cur` accumulates the current line. A CR
    ends the line and swallows one immediately following LF. -/
def splitlinesGo : Text → Text → List Text
  | cur, [] => if cur = [] then [] else [cur]
  | cur, c :: rest =>
    if c = '\r' then
      cur ::
        (match rest with
         | d :: rest2 => if d = '\n' then splitlinesGo [] rest2 else splitlinesGo [] (d :: rest2)
         | [] => [])
    else if isLB c then cur :: splitlinesGo [] rest
    else splitlinesGo (cur ++ [c]) rest

/-- Model of Python `str.splitlines()`. -/
def splitlines (s : Text) : List Text := splitlinesGo [] s

/-- Python `datetime.date`: a validated Gregorian calendar date. -/
structure PyDate where
  year : Nat
  month : Nat
  day : Nat
deriving DecidableEq

def isLeap (y : Nat) : Bool := (y % 4 = 0 && y % 100 ≠ 0) || y % 400 = 0

def daysInMonth (y m : Nat) : Nat :=
  if m = 2 then (if isLeap y then 29 else 28)
  else if m = 4 ∨ m = 6 ∨ m = 9 ∨ m = 11 then 30
  else 31

def digitVal (c : Char) : Option Nat :=
  if '0' ≤ c ∧ c ≤ '9' then some (c.toNat - 48) else none

/-- Model of `date.fromisoformat` restricted to the `YYYY-MM-DD` form
    (the only form `date.isoformat` emits and the only form accepted by
    Python up to 3.10); `none` models the `ValueError` raised on any
    malformed date text. -/
def dateFromIso (s : Text) : Option PyDate :=
  match s with
  | [y1, y2, y3, y4, s1, m1, m2, s2, d1, d2] =>
    if s1 = '-' ∧ s2 = '-' then
      match digitVal y1, digitVal y2, digitVal y3, digitVal y4,
            digitVal m1, digitVal m2, digitVal d1, digitVal d2 with
      | some a, some b, some c, some d, some e, some f, some g, some h =>
        let y := ((a * 10 + b) * 10 + c) * 10 + d
        let m := e * 10 + f
        let dd := g * 10 + h
        if 1 ≤ y ∧ 1 ≤ m ∧ m ≤ 12 ∧ 1 ≤ dd ∧ dd ≤ daysInMonth y m then
          some ⟨y, m, dd⟩
        else none
      | _, _, _, _, _, _, _, _ => none
    else none
  | _ => none

def padZero (width : Nat) (n : Nat) : Text :=
  List.replicate (width - (toString n).length) '0' ++ T (toString n)

/-- Model of `date.isoformat`: `YYYY-MM-DD` with zero padding. -/
def PyDate.isoformat (d : PyDate) : Text :=
  padZero 4 d.year ++ ('-' :: padZero 2 d.month) ++ ('-' :: padZero 2 d.day)

def isPyWS (c : Char) : Bool :=
  c = ' ' || c = '\t' || c = '\n' || c = '\r' || c = '\x0b' || c = '\x0c'

def stripWS (s : Text) : Text :=
  ((s.dropWhile isPyWS).reverse.dropWhile isPyWS).reverse

def isDigitCh (c : Char) : Bool := '0' ≤ c && c ≤ '9'

def dropSign (s : Text) : Text :=
  match s with
  | c :: rest => if c = '+' ∨ c = '-' then rest else c :: rest
  | [] => []

/-- Exponent suffix of a float literal: empty, or `e`/`E`, an optional
    sign and at least one digit. -/
def expOk (s : Text) : Bool :=
  match s with
  | [] => true
  | e :: rest =>
    (e = 'e' || e = 'E') &&
      (let r := dropSign rest
       !r.isEmpty && r.all isDigitCh)

/-- Digits-part of a float literal after the optional sign. -/
def floatDigits (s : Text) : Bool :=
  let ip := s.takeWhile isDigitCh
  let rest1 := s.dropWhile isDigitCh
  match rest1 with
  | '.' :: rest2 =>
    let fp := rest2.takeWhile isDigitCh
    let rest3 := rest2.dropWhile isDigitCh
    (!ip.isEmpty || !fp.isEmpty) && expOk rest3
  | _ => !ip.isEmpty && expOk rest1

/-- Acceptance model of Python `float(str)`: optional surrounding
    whitespace, optional sign, then digits with optional point and
    exponent, or `inf`/`infinity`/`nan` in any case. Underscore digit
    grouping is not modelled. Only acceptance matters to the claims, so
    floats are represented by their accepted literal text. -/
def validFloat (s : Text) : Bool :=
  let t := dropSign (stripWS s)
  pyLower t = T ("inf") || pyLower t = T ("infinity") ||
    pyLower t = T ("nan") || floatDigits t

/-- A decode-time `str`-or-`list` custom property value. -/
inductive CustomVal where
  | str (s : Text)
  | list (l : List Text)
deriving DecidableEq

/-- An email / tel / social-profile dict `{value, type?}`; `type := none`
    models a dict without the `'type'` key. -/
structure ParamEntry where
  value : Text
  type : Option (List Text)
deriving DecidableEq

/-- An address dict `{value?, type?}`; each key may be absent. -/
structure AdrEntry where
  value : Option (List Text)
  type : Option (List Text)
deriving DecidableEq

/-- The GEO dict `{lat, lon}`. Python stores floats; the model keeps the
    accepted literal text of each component (see `validFloat`), which is
    all any claim observes. -/
structure GeoVal where
  lat : Text
  lon : Text
deriving DecidableEq

/-- The `Contact` dataclass, field for field. -/
structure Contact where
  fn : Text
  n : Option (List Text) := none
  nickname : List Text := []
  photo_path : Option Text := none
  photo_data : Option Text := none
  bday : Option PyDate := none
  anniversary : Option PyDate := none
  gender : Option Text := none
  email : List ParamEntry := []
  tel : List ParamEntry := []
  adr : List AdrEntry := []
  org : Option (List Text) := none
  title : Option Text := none
  role : Option Text := none
  url : List Text := []
  impp : List Text := []
  uid : Option Text := none
  categories : List Text := []
  note : Option Text := none
  prodid : Option Text := none
  rev : Option Text := none
  tz : Option Text := none
  geo : Option GeoVal := none
  custom : List (Text × CustomVal) := []
  social_profiles : List ParamEntry := []
deriving DecidableEq

/-- Modelled from the spec: the image collaborator (`PIL` in
    `Contact._embed_photo`, not part of the codec under test) resizes
    the photo at `photo_path` and returns a base64 payload. Its exact
    output is irrelevant to every claim; it is modelled as a total
    function of the path. -/
def resolvePhoto (p : Text) : Text := p

/-- The `if self.photo_path: self._embed_photo()` step of `to_vcard`:
    the one mutation of the serialized Contact (it assigns
    `self.photo_data`). Python truthiness: an empty path string is
    falsy. -/
def embedStep (c : Contact) : Contact :=
  match c.photo_path with
  | some p => if p.isEmpty then c else { c with photo_data := some (resolvePhoto p) }
  | none => c

/-- The `;TYPE=...` parameter emitted when the `'type'` key is present
    (even when the tag list is empty), as in the email/tel/adr branches
    of `to_vcard`. -/
def typeParam (t : Option (List Text)) : Text :=
  match t with
  | some ts => T (";TYPE=") ++ pyJoin (T (",")) ts
  | none => []

/-- The `;TYPE=...` parameter of the social-profile branch, which uses
    truthiness (`if sp.get("type")`) instead of key presence: absent or
    empty tag lists emit nothing. -/
def spTypeParam (t : Option (List Text)) : Text :=
  match t with
  | some (x :: xs) => T (";TYPE=") ++ pyJoin (T (",")) (x :: xs)
  | some [] => []
  | none => []

/-- The logical property lines appended by `to_vcard` between
    `VERSION:4.0` and `END:VCARD`, in source order; each is passed
    through `fold_line` (see `Contact.to_vcard`). Scalar optional fields
    are guarded by Python truthiness, so an empty string emits no
    line. -/
def fieldLines (c : Contact) : List Text :=
  [T ("FN:") ++ escape_text c.fn]
  ++ (match c.n with
      | some l =>
        if l.isEmpty then []
        else [T ("N:") ++
          pyJoin (T (";")) (l.map (fun comp => if comp.isEmpty then [] else escape_text comp))]
      | none => [])
  ++ (if c.nickname.isEmpty then []
      else [T ("NICKNAME:") ++ pyJoin (T (";")) (c.nickname.map escape_text)])
  ++ (match c.photo_data with
      | some pd =>
        if pd.isEmpty then []
        else [T ("PHOTO;ENCODING=b;MEDIATYPE=image/jpeg:") ++ pd]
      | none => [])
  ++ (match c.bday with
      | some d => [T ("BDAY:") ++ d.isoformat]
      | none => [])
  ++ (match c.anniversary with
      | some d => [T ("ANNIVERSARY:") ++ d.isoformat]
      | none => [])
  ++ (match c.gender with
      | some g => if g.isEmpty then [] else [T ("GENDER:") ++ escape_text g]
      | none => [])
  ++ c.email.map (fun e => T ("EMAIL") ++ typeParam e.type ++ (':' :: escape_text e.value))
  ++ c.tel.map (fun t => T ("TEL") ++ typeParam t.type ++ (':' :: escape_text t.value))
  ++ c.adr.map (fun a =>
      T ("ADR") ++ typeParam a.type ++ (':' ::
        pyJoin (T (";"))
          ((match a.value with
            | some vs => vs
            | none => List.replicate 7 []).map escape_text)))
  ++ (match c.org with
      | some l => if l.isEmpty then [] else [T ("ORG:") ++ pyJoin (T (";")) (l.map escape_text)]
      | none => [])
  ++ (match c.title with
      | some x => if x.isEmpty then [] else [T ("TITLE:") ++ escape_text x]
      | none => [])
  ++ (match c.role with
      | some x => if x.isEmpty then [] else [T ("ROLE:") ++ escape_text x]
      | none => [])
  ++ c.url.map (fun u => T ("URL:") ++ escape_text u)
  ++ c.impp.map (fun im => T ("IMPP:") ++ escape_text im)
  ++ (match c.uid with
      | some x => if x.isEmpty then [] else [T ("UID:") ++ escape_text x]
      | none => [])
  ++ (match c.prodid with
      | some x => if x.isEmpty then [] else [T ("PRODID:") ++ escape_text x]
      | none => [])
  ++ (match c.rev with
      | some x => if x.isEmpty then [] else [T ("REV:") ++ escape_text x]
      | none => [])
  ++ (match c.tz with
      | some x => if x.isEmpty then [] else [T ("TZ:") ++ escape_text x]
      | none => [])
  ++ (match c.geo with
      | some g => [T ("GEO:") ++ g.lat ++ (';' :: g.lon)]
      | none => [])
  ++ (if c.categories.isEmpty then []
      else [T ("CATEGORIES:") ++ pyJoin (T (",")) (c.categories.map escape_text)])
  ++ (match c.note with
      | some x => if x.isEmpty then [] else [T ("NOTE:") ++ escape_text x]
      | none => [])
  ++ c.custom.map (fun kv =>
      pyUpper kv.1 ++ (':' ::
        (match kv.2 with
         | CustomVal.list l => pyJoin (T (";")) (l.map escape_text)
         | CustomVal.str s => escape_text s)))
  ++ c.social_profiles.map (fun sp =>
      T ("X-SOCIALPROFILE") ++ spTypeParam sp.type ++ (':' :: escape_text sp.value))

/-- The full physical line list of `to_vcard` after the photo-embedding
    step: fixed preamble, each property line folded at 75, and the
    closing line. -/
def vcardPhysLines (c : Contact) : List Text :=
  [T ("BEGIN:VCARD"), T ("VERSION:4.0")]
    ++ ((fieldLines c).map fold75).flatten
    ++ [T ("END:VCARD")]

/-- `Contact.to_vcard`. The returned pair is (post-state of `self`,
    returned text): the method mutates `self.photo_data` when a photo
    path is set, and otherwise only reads fields. -/
def Contact.to_vcard (c : Contact) : Contact × Text :=
  let c2 := embedStep c
  (c2, pyJoin (T ("\r\n")) (vcardPhysLines c2) ++ T ("\r\n"))

/-- Python exceptions reachable from the codec: `ValidationError` and
    the builtin `ValueError` (from `date.fromisoformat`, tuple
    unpacking, and `float`). -/
inductive VErr where
  | validation (msg : Text)
  | valueErr (msg : Text)
deriving DecidableEq

/-- One accumulated line of `params_map`: parsed parameters and the
    unescaped value. -/
structure Entry where
  params : List (Text × List Text)
  value : Text
deriving DecidableEq

/-- The parameter loop of `from_vcard`: each `KEY=v1,v2` segment maps
    the lowered key to the comma-split value; segments without `=` are
    dropped. New bindings are consed to the front so that a first-match
    lookup sees the latest assignment, as in a Python dict. -/
def parseParams (parts : List Text) : List (Text × List Text) :=
  parts.foldl
    (fun acc p =>
      match splitFirst '=' p with
      | some (k, v) => (pyLower k, pySplit ',' v) :: acc
      | none => acc)
    []

def lookupParam (k : Text) : List (Text × List Text) → Option (List Text)
  | [] => none
  | (k2, v) :: rest => if k2 = k then some v else lookupParam k rest

/-- Parse one logical line: skip it when it has no colon, else split at
    the first colon, split the key part on semicolons, upper-case the
    name, parse parameters, and unescape the value. -/
def parseLine (line : Text) : Option (Text × Entry) :=
  match splitFirst ':' line with
  | none => none
  | some (keyPart, value) =>
    let parts := pySplit ';' keyPart
    some (pyUpper (parts.headD []), ⟨parseParams parts.tail, unescape_text value⟩)

/-- `params_map.setdefault(name, []).append(entry)`: append to the
    existing key (kept at its insertion position) or append a new key at
    the end. -/
def pmAdd (pm : List (Text × List Entry)) (name : Text) (e : Entry) :
    List (Text × List Entry) :=
  match pm with
  | [] => [(name, [e])]
  | (k, es) :: rest =>
    if k = name then (k, es ++ [e]) :: rest else (k, es) :: pmAdd rest name e

def pmLookup (name : Text) : List (Text × List Entry) → Option (List Entry)
  | [] => none
  | (k, es) :: rest => if k = name then some es else pmLookup name rest

/-- One line of the reading loop of `from_vcard`: colon-less lines are
    skipped, others are accumulated into `params_map`. -/
def pmStep (pm : List (Text × List Entry)) (line : Text) : List (Text × List Entry) :=
  match parseLine line with
  | none => pm
  | some (name, e) => pmAdd pm name e

/-- The line-reading loop of `from_vcard`: accumulate `params_map` in
    encounter order. -/
def buildPM (lines : List Text) : List (Text × List Entry) :=
  lines.foldl pmStep []

/-- `contact.custom.setdefault(name, []).append(value)`. The `str` case
    never arises during decode (decode only ever creates list values);
    Python would raise there, the model leaves the value unchanged. -/
def customAdd (cs : List (Text × CustomVal)) (name : Text) (v : Text) :
    List (Text × CustomVal) :=
  match cs with
  | [] => [(name, CustomVal.list [v])]
  | (k, cv) :: rest =>
    if k = name then
      (k, match cv with
          | CustomVal.list l => CustomVal.list (l ++ [v])
          | CustomVal.str s => CustomVal.str s) :: rest
    else (k, cv) :: customAdd rest name v

def getType (e : Entry) : List Text := (lookupParam (T ("type")) e.params).getD []

/-- One iteration of the population loop of `from_vcard`, in the exact
    order of the `elif` chain. -/
def processEntry (c : Contact) (name : Text) (e : Entry) : Except VErr Contact :=
  if name = T ("EMAIL") then
    .ok { c with email := c.email ++ [⟨e.value, some (getType e)⟩] }
  else if name = T ("TEL") then
    .ok { c with tel := c.tel ++ [⟨e.value, some (getType e)⟩] }
  else if name = T ("ADR") then
    .ok { c with adr := c.adr ++ [⟨some (pySplit ';' e.value), some (getType e)⟩] }
  else if name = T ("PHOTO") ∧ (lookupParam (T ("ENCODING")) e.params).isSome then
    .ok { c with photo_data := some e.value }
  else if name = T ("BDAY") then
    match dateFromIso e.value with
    | some d => .ok { c with bday := some d }
    | none => .error (.valueErr (T ("Invalid isoformat string")))
  else if name = T ("ANNIVERSARY") then
    match dateFromIso e.value with
    | some d => .ok { c with anniversary := some d }
    | none => .error (.valueErr (T ("Invalid isoformat string")))
  else if name = T ("URL") then
    .ok { c with url := c.url ++ [e.value] }
  else if name = T ("IMPP") then
    .ok { c with impp := c.impp ++ [e.value] }
  else if name = T ("NICKNAME") then
    .ok { c with nickname := pySplit ';' e.value }
  else if name = T ("UID") then
    .ok { c with uid := some e.value }
  else if name = T ("PRODID") then
    .ok { c with prodid := some e.value }
  else if name = T ("REV") then
    .ok { c with rev := some e.value }
  else if name = T ("TZ") then
    .ok { c with tz := some e.value }
  else if name = T ("GEO") then
    match pySplit ';' e.value with
    | [la, lo] =>
      if validFloat la ∧ validFloat lo then .ok { c with geo := some ⟨la, lo⟩ }
      else .error (.valueErr (T ("could not convert string to float")))
    | _ => .error (.valueErr (T ("cannot unpack")))
  else if name = T ("GENDER") then
    .ok { c with gender := some e.value }
  else if name = T ("CATEGORIES") then
    .ok { c with categories := pySplit ',' e.value }
  else if name = T ("NOTE") then
    .ok { c with note := some e.value }
  else if name = T ("BEGIN") ∨ name = T ("END") ∨ name = T ("VERSION") then
    .ok c
  else
    .ok { c with custom := customAdd c.custom name e.value }

def processEntries (c : Contact) (name : Text) : List Entry → Except VErr Contact
  | [] => .ok c
  | e :: rest =>
    match processEntry c name e with
    | .ok c2 => processEntries c2 name rest
    | .error er => .error er

def populateAll (c : Contact) : List (Text × List Entry) → Except VErr Contact
  | [] => .ok c
  | (name, es) :: rest =>
    match processEntries c name es with
    | .ok c2 => populateAll c2 rest
    | .error er => .error er

def emptyEntry : Entry := ⟨[], []⟩

/-- `Contact.from_vcard`: split and unfold the raw lines, accumulate
    `params_map`, require FN, seed `fn` (and `n`) from the first
    entries, then run the population loop. An `error` result models the
    exception propagating with no Contact returned. -/
def Contact.from_vcard (text : Text) : Except VErr Contact :=
  let pm := buildPM (unfold_lines (splitlines text))
  match pmLookup (T ("FN")) pm with
  | none => .error (.validation (T ("FN is required")))
  | some fnEs =>
    let c0 : Contact := { fn := (fnEs.headD emptyEntry).value }
    let c1 :=
      match pmLookup (T ("N")) pm with
      | some nEs => { c0 with n := some (pySplit ';' (nEs.headD emptyEntry).value) }
      | none => c0
    populateAll c1 pm

/-- Raw vCard text with one CRLF after every line, as `to_vcard` emits
    (it equals `pyJoin CRLF lines ++ CRLF` for nonempty line lists). -/
def mkVCard (lines : List Text) : Text := (lines.map (fun l => l ++ T ("\r\n"))).flatten

/-- `params_map` as `from_vcard` accumulates it from raw text. -/
def pmOf (text : Text) : List (Text × List Entry) :=
  buildPM (unfold_lines (splitlines text))

/-- The GEO value shape Python accepts without raising: exactly two
    semicolon-separated components, each accepted by `float`. -/
def geoOk (v : Text) : Prop :=
  ∃ la lo, pySplit ';' v = [la, lo] ∧ validFloat la = true ∧ validFloat lo = true

instance (v : Text) : Decidable (geoOk v) := by
  unfold geoOk
  match h : pySplit ';' v with
  | [la, lo] =>
    refine decidable_of_iff (validFloat la = true ∧ validFloat lo = true) ?_
    constructor
    · rintro ⟨h1, h2⟩; exact ⟨la, lo, rfl, h1, h2⟩
    · rintro ⟨la2, lo2, heq, h1, h2⟩
      obtain ⟨rfl, rfl, -⟩ := by
        simpa using heq
      exact ⟨h1, h2⟩
  | [] => exact .isFalse (by rintro ⟨la, lo, heq, -⟩; simp at heq)
  | [x] => exact .isFalse (by rintro ⟨la, lo, heq, -⟩; simp at heq)
  | x :: y :: z :: rest => exact .isFalse (by rintro ⟨la, lo, heq, -⟩; simp at heq)

/-- An entry the population loop of `from_vcard` survives: dates must
    parse and GEO values must split into two floats. All other
    properties never raise. -/
def entryOk (name : Text) (e : Entry) : Prop :=
  ((name = T ("BDAY") ∨ name = T ("ANNIVERSARY")) → (dateFromIso e.value).isSome = true) ∧
  (name = T ("GEO") → geoOk e.value)

/-- Characters that survive the codec verbatim: not escaped, not a
    separator, and not a line boundary. -/
def PlainChar (ch : Char) : Prop :=
  ch ≠ '\\' ∧ ch ≠ ';' ∧ ch ≠ ',' ∧ ch ≠ '\r' ∧ isLB ch = false

instance (ch : Char) : Decidable (PlainChar ch) := by
  unfold PlainChar; infer_instance

def PlainText (s : Text) : Prop := ∀ ch ∈ s, PlainChar ch

instance (s : Text) : Decidable (PlainText s) := by
  unfold PlainText; infer_instance

/-- A type tag that round-trips: plain, and free of the colon and the
    comma that delimit the parameter syntax. -/
def PlainTag (s : Text) : Prop := ∀ ch ∈ s, PlainChar ch ∧ ch ≠ ':'

instance (s : Text) : Decidable (PlainTag s) := by
  unfold PlainTag; infer_instance

/-- An email/tel entry whose value and tags round-trip: plain value and
    a present, nonempty tag list (`'type' in e` with at least one tag;
    an empty tag list re-reads as `['']`). -/
def GoodEntry (e : ParamEntry) : Prop :=
  PlainText e.value ∧ ∃ ts, e.type = some ts ∧ ts ≠ [] ∧ ∀ t ∈ ts, PlainTag t

instance (e : ParamEntry) : Decidable (GoodEntry e) := by
  unfold GoodEntry
  match e.type with
  | none => exact .isFalse (by rintro ⟨-, ts, h, -⟩; cases h)
  | some ts =>
    refine decidable_of_iff (PlainText e.value ∧ ts ≠ [] ∧ ∀ t ∈ ts, PlainTag t) ?_
    constructor
    · rintro ⟨h1, h2, h3⟩; exact ⟨h1, ts, rfl, h2, h3⟩
    · rintro ⟨h1, ts2, heq, h2, h3⟩; cases heq; exact ⟨h1, h2, h3⟩

/-- The restricted Contact class of the amended round-trip claim:
    a plain nonempty formatted name, email/tel entries that are
    `GoodEntry`, plain url values, and every other optional field left
    empty. -/
def GoodContact (c : Contact) : Prop :=
  c.fn ≠ [] ∧ PlainText c.fn ∧
  (∀ e ∈ c.email, GoodEntry e) ∧ (∀ e ∈ c.tel, GoodEntry e) ∧
  (∀ u ∈ c.url, PlainText u) ∧
  c.n = none ∧ c.nickname = [] ∧ c.photo_path = none ∧ c.photo_data = none ∧
  c.bday = none ∧ c.anniversary = none ∧ c.gender = none ∧ c.adr = [] ∧
  c.org = none ∧ c.title = none ∧ c.role = none ∧ c.impp = [] ∧
  c.uid = none ∧ c.categories = [] ∧ c.note = none ∧ c.prodid = none ∧
  c.rev = none ∧ c.tz = none ∧ c.geo = none ∧ c.custom = [] ∧
  c.social_profiles = []

instance (c : Contact) : Decidable (GoodContact c) := by
  unfold GoodContact; infer_instance

/-- Per-character image of `escape_text` (see `escape_eq_flatMap`). -/
def escChar (c : Char) : Text :=
  if c = '\\' then ['\\', '\\']
  else if c = ';' then ['\\', ';']
  else if c = ',' then ['\\', ',']
  else if c = '\n' then ['\\', 'n']
  else [c]

/-- Per-character state after the backslash-n pass of `unescape_text`
    on escaped backslash-free text. -/
def escChar1 (c : Char) : Text :=
  if c = ';' then ['\\', ';'] else if c = ',' then ['\\', ','] else [c]

/-- Per-character state after the backslash-comma pass as well. -/
def escChar2 (c : Char) : Text :=
  if c = ';' then ['\\', ';'] else [c]

/-- Decidable equality of modelled results, so that concrete runs of the
    codec can be checked by evaluation. -/
instance {ε α : Type} [DecidableEq ε] [DecidableEq α] : DecidableEq (Except ε α) := fun a b =>
  match a, b with
  | .error x, .error y =>
    if h : x = y then .isTrue (by rw [h]) else .isFalse (by simp [h])
  | .error _, .ok _ => .isFalse (by simp)
  | .ok _, .error _ => .isFalse (by simp)
  | .ok x, .ok y =>
    if h : x = y then .isTrue (by rw [h]) else .isFalse (by simp [h])

theorem startsWithSeq_length {pat s : Text} (h : startsWithSeq pat s = true) :
    pat.length ≤ s.length := by
  induction pat generalizing s with
  | nil => simp
  | cons p ps ih =>
    cases s with
    | nil => simp [startsWithSeq] at h
    | cons c t =>
      simp only [startsWithSeq, Bool.and_eq_true] at h
      simpa using ih h.2

theorem replFuel_congr (pat rep : Text) :
    ∀ fuel s, s.length ≤ fuel →
      replFuel pat rep fuel s = replFuel pat rep s.length s := by
  intro fuel
  induction fuel using Nat.strong_induction_on with
  | _ fuel ih =>
    intro s hs
    match fuel, s with
    | 0, [] => rfl
    | 0, c :: t => simp at hs
    | fuel + 1, [] =>
      cases pat <;> simp [replFuel, startsWithSeq]
    | fuel + 1, c :: t =>
      by_cases hc : pat ≠ [] ∧ startsWithSeq pat (c :: t) = true
      · have hplen : 1 ≤ pat.length := by
          cases pat with
          | nil => exact absurd rfl hc.1
          | cons p ps => simp
        have hswlen := startsWithSeq_length hc.2
        have hdlen : ((c :: t).drop pat.length).length = t.length + 1 - pat.length := by
          simp
        have hstep : ∀ f, replFuel pat rep (f + 1) (c :: t) =
            rep ++ replFuel pat rep f ((c :: t).drop pat.length) := by
          intro f; simp [replFuel, hc]
        have hlen1 : ((c :: t).drop pat.length).length ≤ fuel := by
          rw [hdlen]; simp at hs; omega
        have hlen2 : ((c :: t).drop pat.length).length ≤ t.length := by
          rw [hdlen]; omega
        rw [show (c :: t).length = t.length + 1 from by simp, hstep fuel, hstep t.length]
        rw [ih fuel (Nat.lt_succ_self _) _ hlen1,
            ih t.length (by simp at hs; omega) _ hlen2]
      · have hstep : ∀ f, replFuel pat rep (f + 1) (c :: t) =
            c :: replFuel pat rep f t := by
          intro f; simp only [replFuel, if_neg hc]
        rw [show (c :: t).length = t.length + 1 from by simp, hstep fuel, hstep t.length]
        rw [ih fuel (Nat.lt_succ_self _) _ (by simp at hs; omega)]

theorem pyReplace_nil (pat rep : Text) : pyReplace pat rep [] = [] := rfl

theorem pyReplace_pos {pat : Text} (rep : Text) {s : Text} (hne : pat ≠ [])
    (hsw : startsWithSeq pat s = true) :
    pyReplace pat rep s = rep ++ pyReplace pat rep (s.drop pat.length) := by
  cases s with
  | nil =>
    cases pat with
    | nil => exact absurd rfl hne
    | cons p ps => simp [startsWithSeq] at hsw
  | cons c t =>
    have hplen : 1 ≤ pat.length := by
      cases pat with
      | nil => exact absurd rfl hne
      | cons p ps => simp
    unfold pyReplace
    rw [show (c :: t).length = t.length + 1 from by simp]
    rw [show replFuel pat rep (t.length + 1) (c :: t) =
        rep ++ replFuel pat rep t.length ((c :: t).drop pat.length) from by
      simp [replFuel, hne, hsw]]
    congr 1
    exact replFuel_congr pat rep t.length _ (by simp; omega)

theorem pyReplace_cons_neg {pat : Text} (rep : Text) {c : Char} {t : Text}
    (h : startsWithSeq pat (c :: t) = false) :
    pyReplace pat rep (c :: t) = c :: pyReplace pat rep t := by
  unfold pyReplace
  rw [show (c :: t).length = t.length + 1 from by simp]
  simp only [replFuel, h, Bool.false_eq_true, and_false, if_false]

theorem pyReplace_one_cons (p : Char) (rep : Text) (c : Char) (t : Text) :
    pyReplace [p] rep (c :: t) =
      (if c = p then rep else [c]) ++ pyReplace [p] rep t := by
  by_cases h : c = p
  · subst h
    rw [pyReplace_pos rep (by simp) (by simp [startsWithSeq])]
    simp
  · rw [pyReplace_cons_neg rep (by simp [startsWithSeq, Ne.symm h])]
    simp [h]

theorem pyReplace_one_append (p : Char) (rep : Text) (a b : Text) :
    pyReplace [p] rep (a ++ b) = pyReplace [p] rep a ++ pyReplace [p] rep b := by
  induction a with
  | nil => simp [pyReplace_nil]
  | cons c t ih => simp [pyReplace_one_cons, ih]

theorem pyReplace_two_pos (a b : Char) (rep : Text) (t : Text) :
    pyReplace [a, b] rep (a :: b :: t) = rep ++ pyReplace [a, b] rep t := by
  rw [pyReplace_pos rep (by simp) (by simp [startsWithSeq])]
  simp

theorem pyReplace_head_notMem {a : Char} (pat rep : Text) :
    ∀ s : Text, a ∉ s → pyReplace (a :: pat) rep s = s := by
  intro s
  induction s with
  | nil => intro _; rfl
  | cons c t ih =>
    intro h
    simp only [List.mem_cons, not_or] at h
    rw [pyReplace_cons_neg rep ?hsw]
    · rw [ih h.2]
    case hsw =>
      simp only [startsWithSeq, Bool.and_eq_false_iff, decide_eq_false_iff_not]
      left; exact h.1

theorem escape_append (a b : Text) :
    escape_text (a ++ b) = escape_text a ++ escape_text b := by
  have e1 : T ("\\") = ['\\'] := by decide
  have e2 : T (";") = [';'] := by decide
  have e3 : T (",") = [','] := by decide
  have e4 : T ("\n") = ['\n'] := by decide
  unfold escape_text
  rw [e1, e2, e3, e4]
  simp [pyReplace_one_append]

theorem escape_single (c : Char) : escape_text [c] = escChar c := by
  by_cases h1 : c = '\\'
  · subst h1; decide
  · by_cases h2 : c = ';'
    · subst h2; decide
    · by_cases h3 : c = ','
      · subst h3; decide
      · by_cases h4 : c = '\n'
        · subst h4; decide
        · have e1 : T ("\\") = ['\\'] := by decide
          have e2 : T (";") = [';'] := by decide
          have e3 : T (",") = [','] := by decide
          have e4 : T ("\n") = ['\n'] := by decide
          unfold escape_text
          rw [e1, e2, e3, e4]
          simp [pyReplace_one_cons, pyReplace_nil, h1, h2, h3, h4, escChar]

theorem escape_cons (c : Char) (t : Text) :
    escape_text (c :: t) = escChar c ++ escape_text t := by
  rw [show c :: t = [c] ++ t from rfl, escape_append, escape_single]

theorem escape_nil : escape_text [] = [] := by decide

theorem escape_eq_flatMap (s : Text) : escape_text s = s.flatMap escChar := by
  induction s with
  | nil => exact escape_nil
  | cons c t ih => rw [escape_cons, ih]; simp

theorem unesc_pass1 (s : Text) (h : '\\' ∉ s) :
    pyReplace ['\\', 'n'] ['\n'] (s.flatMap escChar) = s.flatMap escChar1 := by
  induction s with
  | nil => rfl
  | cons c t ih =>
    simp only [List.mem_cons, not_or] at h
    have ih2 := ih h.2
    simp only [List.flatMap_cons]
    by_cases h2 : c = ';'
    · subst h2
      rw [show escChar ';' = ['\\', ';'] from by decide]
      simp only [List.cons_append, List.nil_append]
      rw [pyReplace_cons_neg _ (by simp [startsWithSeq]),
          pyReplace_cons_neg _ (by simp [startsWithSeq]), ih2]
      rw [show escChar1 ';' = ['\\', ';'] from by decide]
      rfl
    · by_cases h3 : c = ','
      · subst h3
        rw [show escChar ',' = ['\\', ','] from by decide]
        simp only [List.cons_append, List.nil_append]
        rw [pyReplace_cons_neg _ (by simp [startsWithSeq]),
            pyReplace_cons_neg _ (by simp [startsWithSeq]), ih2]
        rw [show escChar1 ',' = ['\\', ','] from by decide]
        rfl
      · by_cases h4 : c = '\n'
        · subst h4
          rw [show escChar '\n' = ['\\', 'n'] from by decide]
          simp only [List.cons_append, List.nil_append]
          rw [pyReplace_two_pos, ih2]
          rw [show escChar1 '\n' = ['\n'] from by decide]
        · rw [show escChar c = [c] from by
            simp [escChar, Ne.symm h.1, h2, h3, h4]]
          simp only [List.cons_append, List.nil_append]
          rw [pyReplace_cons_neg _ ?hsw, ih2]
          · rw [show escChar1 c = [c] from by simp [escChar1, h2, h3]]
            rfl
          case hsw =>
            simp only [startsWithSeq, Bool.and_eq_false_iff, decide_eq_false_iff_not]
            left; exact h.1

theorem unesc_pass2 (s : Text) (h : '\\' ∉ s) :
    pyReplace ['\\', ','] [','] (s.flatMap escChar1) = s.flatMap escChar2 := by
  induction s with
  | nil => rfl
  | cons c t ih =>
    simp only [List.mem_cons, not_or] at h
    have ih2 := ih h.2
    simp only [List.flatMap_cons]
    by_cases h2 : c = ';'
    · subst h2
      rw [show escChar1 ';' = ['\\', ';'] from by decide]
      simp only [List.cons_append, List.nil_append]
      rw [pyReplace_cons_neg _ (by simp [startsWithSeq]),
          pyReplace_cons_neg _ (by simp [startsWithSeq]), ih2]
      rw [show escChar2 ';' = ['\\', ';'] from by decide]
      rfl
    · by_cases h3 : c = ','
      · subst h3
        rw [show escChar1 ',' = ['\\', ','] from by decide]
        simp only [List.cons_append, List.nil_append]
        rw [pyReplace_two_pos, ih2]
        rw [show escChar2 ',' = [','] from by decide]
      · rw [show escChar1 c = [c] from by simp [escChar1, h2, h3]]
        simp only [List.cons_append, List.nil_append]
        rw [pyReplace_cons_neg _ ?hsw, ih2]
        · rw [show escChar2 c = [c] from by simp [escChar2, h2]]
          rfl
        case hsw =>
          simp only [startsWithSeq, Bool.and_eq_false_iff, decide_eq_false_iff_not]
          left; exact h.1

theorem unesc_pass3 (s : Text) (h : '\\' ∉ s) :
    pyReplace ['\\', ';'] [';'] (s.flatMap escChar2) = s := by
  induction s with
  | nil => rfl
  | cons c t ih =>
    simp only [List.mem_cons, not_or] at h
    have ih2 := ih h.2
    simp only [List.flatMap_cons]
    by_cases h2 : c = ';'
    · subst h2
      rw [show escChar2 ';' = ['\\', ';'] from by decide]
      simp only [List.cons_append, List.nil_append]
      rw [pyReplace_two_pos, ih2]
      rfl
    · rw [show escChar2 c = [c] from by simp [escChar2, h2]]
      simp only [List.cons_append, List.nil_append]
      rw [pyReplace_cons_neg _ ?hsw, ih2]
      case hsw =>
        simp only [startsWithSeq, Bool.and_eq_false_iff, decide_eq_false_iff_not]
        left; exact h.1

theorem unesc_pass4 (s : Text) (h : '\\' ∉ s) :
    pyReplace ['\\', '\\'] ['\\'] s = s :=
  pyReplace_head_notMem _ _ s h

/-- For backslash-free input the two transforms invert each other. -/
theorem unescape_escape_of_no_bs (s : Text) (h : '\\' ∉ s) :
    unescape_text (escape_text s) = s := by
  have e1 : T ("\\n") = ['\\', 'n'] := by decide
  have e2 : T ("\\,") = ['\\', ','] := by decide
  have e3 : T ("\\;") = ['\\', ';'] := by decide
  have e4 : T ("\\\\") = ['\\', '\\'] := by decide
  have e5 : T ("\n") = ['\n'] := by decide
  have e6 : T (",") = [','] := by decide
  have e7 : T (";") = [';'] := by decide
  have e8 : T ("\\") = ['\\'] := by decide
  rw [escape_eq_flatMap]
  unfold unescape_text
  rw [e1, e2, e3, e4, e5, e6, e7, e8]
  rw [unesc_pass1 s h, unesc_pass2 s h, unesc_pass3 s h, unesc_pass4 s h]

/-- Text whose characters are in none of the four escape classes is
    fixed by `escape_text`. -/
theorem escape_plain (s : Text)
    (h : ∀ ch ∈ s, ch ≠ '\\' ∧ ch ≠ ';' ∧ ch ≠ ',' ∧ ch ≠ '\n') :
    escape_text s = s := by
  rw [escape_eq_flatMap]
  induction s with
  | nil => rfl
  | cons c t ih =>
    have hc := h c (by simp)
    simp only [List.flatMap_cons]
    rw [show escChar c = [c] from by simp [escChar, hc.1, hc.2.1, hc.2.2.1, hc.2.2.2]]
    rw [ih (fun ch hch => h ch (by simp [hch]))]
    rfl

/-- Backslash-free text is fixed by `unescape_text`: all four patterns
    begin with a backslash. -/
theorem unescape_plain (s : Text) (h : '\\' ∉ s) : unescape_text s = s := by
  have e1 : T ("\\n") = ['\\', 'n'] := by decide
  have e2 : T ("\\,") = ['\\', ','] := by decide
  have e3 : T ("\\;") = ['\\', ';'] := by decide
  have e4 : T ("\\\\") = ['\\', '\\'] := by decide
  unfold unescape_text
  rw [e1, e2, e3, e4]
  rw [pyReplace_head_notMem _ _ s h, pyReplace_head_notMem _ _ s h,
      pyReplace_head_notMem _ _ s h, pyReplace_head_notMem _ _ s h]

theorem foldFuel_short {limit : Nat} {line : Text} (h : ¬ limit < line.length)
    (fuel : Nat) : foldFuel limit fuel line = some [line] := by
  cases fuel <;> simp [foldFuel, h]

theorem foldFuel_step {limit : Nat} {line : Text} (h : limit < line.length)
    (fuel : Nat) :
    foldFuel limit (fuel + 1) line =
      (foldFuel limit fuel (' ' :: line.drop limit)).map
        (fun r => line.take limit :: r) := by
  simp [foldFuel, h]

theorem foldFuel_zero {limit : Nat} {line : Text} (h : limit < line.length) :
    foldFuel limit 0 line = none := by
  simp [foldFuel, h]

/-- Main invariant of the folding loop for `limit ≥ 2`: with enough fuel
    it returns segments whose head is the `limit`-prefix, whose
    continuations all start with the folding space, all bounded by
    `limit`, drawn from the line's characters plus the space, and whose
    reassembly is the original line. -/
theorem foldFuel_main {limit : Nat} (h2 : 2 ≤ limit) :
    ∀ fuel line, line.length ≤ fuel + limit →
      ∃ rest, foldFuel limit fuel line = some (line.take limit :: rest) ∧
        (∀ r ∈ rest, r.headD 'x' = ' ') ∧
        (∀ r ∈ rest, r.length ≤ limit) ∧
        line.take limit ++ (rest.map List.tail).flatten = line ∧
        (∀ r ∈ rest, ∀ ch ∈ r, ch = ' ' ∨ ch ∈ line) := by
  intro fuel
  induction fuel with
  | zero =>
    intro line hlen
    have hshort : ¬ limit < line.length := by omega
    refine ⟨[], ?_, by simp, by simp, ?_, by simp⟩
    · rw [foldFuel_short hshort, List.take_of_length_le (by omega)]
    · simp [List.take_of_length_le (show line.length ≤ limit by omega)]
  | succ fuel ih =>
    intro line hlen
    by_cases hL : limit < line.length
    · have hrec : (' ' :: line.drop limit).length ≤ fuel + limit := by
        simp; omega
      obtain ⟨rest, heq, hheads, hlens, hjoin, hchars⟩ := ih (' ' :: line.drop limit) hrec
      refine ⟨(' ' :: line.drop limit).take limit :: rest, ?_, ?_, ?_, ?_, ?_⟩
      · rw [foldFuel_step hL, heq]; rfl
      · intro r hr
        rcases List.mem_cons.1 hr with rfl | hr2
        · simp [List.take_cons, show limit ≠ 0 by omega]
          cases limit with
          | zero => omega
          | succ l => simp
        · exact hheads r hr2
      · intro r hr
        rcases List.mem_cons.1 hr with rfl | hr2
        · simp
        · exact hlens r hr2
      · have htail : ((' ' :: line.drop limit).take limit).tail =
            (line.drop limit).take (limit - 1) := by
          cases limit with
          | zero => omega
          | succ l => simp
        have hjoin2 : (' ' :: line.drop limit).take limit ++
            (rest.map List.tail).flatten = ' ' :: line.drop limit := hjoin
        have htail2 : ((' ' :: line.drop limit).take limit).tail ++
            (rest.map List.tail).flatten = line.drop limit := by
          have := congrArg List.tail hjoin2
          rw [List.tail_append_of_ne_nil] at this
          · simpa using this
          · cases limit with
            | zero => omega
            | succ l => simp
        simp only [List.map_cons, List.flatten_cons, ← List.append_assoc]
        rw [List.append_assoc, htail2, List.take_append_drop]
      · intro r hr ch hch
        rcases List.mem_cons.1 hr with rfl | hr2
        · have := List.mem_of_mem_take hch
          rcases List.mem_cons.1 this with rfl | hd
          · exact Or.inl rfl
          · exact Or.inr (List.mem_of_mem_drop hd)
        · rcases hchars r hr2 ch hch with hsp | hmem
          · exact Or.inl hsp
          · rcases List.mem_cons.1 hmem with rfl | hd
            · exact Or.inl rfl
            · exact Or.inr (List.mem_of_mem_drop hd)
    · have hshort := foldFuel_short hL (fuel + 1)
      refine ⟨[], ?_, by simp, by simp, ?_, by simp⟩
      · rw [hshort, List.take_of_length_le (by omega)]
      · simp [List.take_of_length_le (show line.length ≤ limit by omega)]

theorem collectCont_all_cont :
    ∀ (rest : List Text) (cur : Text), (∀ r ∈ rest, contHead r) →
      collectCont cur rest = [cur ++ (rest.map List.tail).flatten] := by
  intro rest
  induction rest with
  | nil => intro cur _; simp [collectCont]
  | cons r rs ih =>
    intro cur h
    have hr : contHead r := h r (by simp)
    rw [collectCont, if_pos hr, ih _ (fun x hx => h x (by simp [hx]))]
    simp

theorem headD_space_contHead {r : Text} (h : r.headD 'x' = ' ') : contHead r :=
  Or.inl h

/-- `unfold_lines` undoes a terminating `fold_line`: the segments
    reassemble to exactly the original logical line. -/
theorem unfold_foldFuel {limit : Nat} (h2 : 2 ≤ limit) (line : Text) :
    ∃ segs, fold_line line limit = some segs ∧ segs ≠ [] ∧
      (∀ s ∈ segs, s.length ≤ limit) ∧
      unfold_lines segs = [line] := by
  obtain ⟨rest, heq, hheads, hlens, hjoin, -⟩ :=
    foldFuel_main h2 line.length line (by omega)
  refine ⟨line.take limit :: rest, heq, by simp, ?_, ?_⟩
  · intro s hs
    rcases List.mem_cons.1 hs with rfl | hs2
    · simp
    · exact hlens s hs2
  · rw [unfold_lines, collectCont_all_cont rest _
      (fun r hr => headD_space_contHead (hheads r hr)), hjoin]

/-- At the default limit the folding loop always terminates. -/
theorem fold75_eq (line : Text) : fold_line line 75 = some (fold75 line) := by
  obtain ⟨rest, heq, -⟩ := foldFuel_main (by norm_num : 2 ≤ 75) line.length line (by omega)
  rw [fold75, fold_line] at *
  rw [heq]
  rfl

theorem fold75_spec (line : Text) :
    ∃ rest, fold75 line = line.take 75 :: rest ∧
      (∀ r ∈ rest, r.headD 'x' = ' ') ∧
      line.take 75 ++ (rest.map List.tail).flatten = line ∧
      (∀ r ∈ rest, ∀ ch ∈ r, ch = ' ' ∨ ch ∈ line) := by
  obtain ⟨rest, heq, hheads, hlens, hjoin, hchars⟩ :=
    foldFuel_main (by norm_num : 2 ≤ 75) line.length line (by omega)
  refine ⟨rest, ?_, hheads, hjoin, hchars⟩
  have : fold_line line 75 = some (line.take 75 :: rest) := heq
  rw [fold75, this]
  rfl

/-- Continuation segments are consumed into `cur`, then processing
    continues. -/
theorem collectCont_append_cont :
    ∀ (rs : List Text) (cur : Text) (more : List Text),
      (∀ r ∈ rs, contHead r) →
      collectCont cur (rs ++ more) =
        collectCont (cur ++ (rs.map List.tail).flatten) more := by
  intro rs
  induction rs with
  | nil => intro cur more _; simp
  | cons r rest ih =>
    intro cur more h
    have hr : contHead r := h r (by simp)
    rw [List.cons_append, collectCont, if_pos hr,
        ih _ more (fun x hx => h x (by simp [hx]))]
    simp

/-- A folded logical line consumes itself from the segment stream:
    processing `fold75 l ++ more` after `cur` emits `cur` and continues
    with `l` as the new current line (for `l` nonempty and not starting
    with space or tab). -/
theorem collectCont_fold75 (l : Text) (hne : l ≠ []) (hnc : ¬ contHead l)
    (cur : Text) (more : List Text) :
    collectCont cur (fold75 l ++ more) = cur :: collectCont l more := by
  obtain ⟨rest, heq, hheads, hjoin, -⟩ := fold75_spec l
  have htake_ne : l.take 75 ≠ [] := by
    cases l with
    | nil => exact absurd rfl hne
    | cons a t => simp
  have htake_head : (l.take 75).headD 'x' = l.headD 'x' := by
    cases l with
    | nil => exact absurd rfl hne
    | cons a t => simp [List.take_cons]
  have hnc2 : ¬ contHead (l.take 75) := by
    unfold contHead at *
    rw [htake_head]
    exact hnc
  rw [heq, List.cons_append, collectCont, if_neg hnc2,
      collectCont_append_cont rest _ more
        (fun r hr => headD_space_contHead (hheads r hr)), hjoin]

/-- Unfolding the concatenated foldings of a list of good logical lines
    (followed by a final plain line) recovers the logical lines. -/
theorem collectCont_folds :
    ∀ (logs : List Text), (∀ l ∈ logs, l ≠ [] ∧ ¬ contHead l) →
      ∀ (cur fin : Text), ¬ contHead fin →
        collectCont cur ((logs.map fold75).flatten ++ [fin]) =
          cur :: (logs ++ [fin]) := by
  intro logs
  induction logs with
  | nil =>
    intro _ cur fin hfin
    simp [collectCont, if_neg hfin]
  | cons l ls ih =>
    intro h cur fin hfin
    have hl := h l (by simp)
    simp only [List.map_cons, List.flatten_cons, List.append_assoc]
    rw [collectCont_fold75 l hl.1 hl.2 cur _]
    rw [ih (fun x hx => h x (by simp [hx])) l fin hfin]
    simp

theorem splitlinesGo_cons_plain {c : Char} (h1 : ¬ c = '\r') (h2 : isLB c = false)
    (cur s : Text) : splitlinesGo cur (c :: s) = splitlinesGo (cur ++ [c]) s := by
  rw [splitlinesGo.eq_def]
  simp [h1, h2]

theorem splitlinesGo_crlf (cur s : Text) :
    splitlinesGo cur ('\r' :: '\n' :: s) = cur :: splitlinesGo [] s := by
  rw [splitlinesGo.eq_def]
  simp

theorem splitlinesGo_line (l : Text) (h : ∀ ch ∈ l, ¬ ch = '\r' ∧ isLB ch = false) :
    ∀ cur s, splitlinesGo cur (l ++ '\r' :: '\n' :: s) = (cur ++ l) :: splitlinesGo [] s := by
  induction l with
  | nil => intro cur s; simpa using splitlinesGo_crlf cur s
  | cons c t ih =>
    intro cur s
    have hc := h c (by simp)
    rw [List.cons_append, splitlinesGo_cons_plain hc.1 hc.2,
        ih (fun ch hch => h ch (by simp [hch]))]
    simp

theorem splitlines_mkVCard (ls : List Text)
    (h : ∀ l ∈ ls, ∀ ch ∈ l, ¬ ch = '\r' ∧ isLB ch = false) :
    splitlines (mkVCard ls) = ls := by
  have hcrlf : T ("\r\n") = ['\r', '\n'] := by decide
  induction ls with
  | nil => rfl
  | cons l rest ih =>
    have hshape : mkVCard (l :: rest) = l ++ '\r' :: '\n' :: mkVCard rest := by
      simp [mkVCard, hcrlf]
    rw [splitlines, hshape, splitlinesGo_line l (h l (by simp))]
    have := ih (fun x hx => h x (by simp [hx]))
    rw [splitlines] at this
    rw [this]
    simp

theorem mkVCard_eq_join (ls : List Text) (h : ls ≠ []) :
    pyJoin (T ("\r\n")) ls ++ T ("\r\n") = mkVCard ls := by
  induction ls with
  | nil => exact absurd rfl h
  | cons l rest ih =>
    cases rest with
    | nil => simp [pyJoin, mkVCard]
    | cons m rest2 =>
      have hih := ih (by simp)
      rw [pyJoin]
      rw [show mkVCard (l :: m :: rest2) =
        l ++ T ("\r\n") ++ mkVCard (m :: rest2) from by simp [mkVCard]]
      rw [← hih]
      simp

theorem pySplit_ne_nil (sep : Char) (s : Text) : pySplit sep s ≠ [] := by
  cases s with
  | nil => simp [pySplit]
  | cons c t =>
    simp only [pySplit]
    by_cases h : c = sep <;> simp [h]

theorem pySplit_nosep {sep : Char} {s : Text} (h : sep ∉ s) :
    pySplit sep s = [s] := by
  induction s with
  | nil => rfl
  | cons c t ih =>
    simp only [List.mem_cons, not_or] at h
    rw [pySplit.eq_def]
    simp only [if_neg (fun hh => h.1 (Eq.symm hh))]
    rw [ih h.2]
    simp

theorem pySplit_append {sep : Char} {a : Text} (h : sep ∉ a) (b : Text) :
    pySplit sep (a ++ sep :: b) = a :: pySplit sep b := by
  induction a with
  | nil =>
    simp only [List.nil_append]
    rw [pySplit.eq_def]
    simp
  | cons c t ih =>
    simp only [List.mem_cons, not_or] at h
    rw [List.cons_append, pySplit.eq_def]
    simp only [if_neg (fun hh => h.1 (Eq.symm hh))]
    rw [ih h.2]
    simp

theorem pySplit_join {sep : Char} :
    ∀ parts : List Text, parts ≠ [] → (∀ p ∈ parts, sep ∉ p) →
      pySplit sep (pyJoin [sep] parts) = parts := by
  intro parts
  induction parts with
  | nil => intro h _; exact absurd rfl h
  | cons x rest ih =>
    intro _ h
    cases rest with
    | nil => exact pySplit_nosep (h x (by simp))
    | cons y rest2 =>
      rw [pyJoin]
      rw [show x ++ [sep] ++ pyJoin [sep] (y :: rest2) =
        x ++ sep :: pyJoin [sep] (y :: rest2) from by simp]
      rw [pySplit_append (h x (by simp)), ih (by simp) (fun p hp => h p (by simp [hp]))]

theorem pyJoin_chars {sep : Text} {parts : List Text} {ch : Char}
    (h : ch ∈ pyJoin sep parts) : ch ∈ sep ∨ ∃ p ∈ parts, ch ∈ p := by
  induction parts with
  | nil => simp [pyJoin] at h
  | cons x rest ih =>
    cases rest with
    | nil => exact Or.inr ⟨x, by simp, by simpa [pyJoin] using h⟩
    | cons y rest2 =>
      rw [pyJoin] at h
      simp only [List.mem_append] at h
      rcases h with (hx | hs) | hr
      · exact Or.inr ⟨x, by simp, hx⟩
      · exact Or.inl hs
      · rcases ih hr with hs | ⟨p, hp, hc⟩
        · exact Or.inl hs
        · exact Or.inr ⟨p, by simp [List.mem_cons.1 hp], hc⟩

theorem splitFirst_nosep {sep : Char} {s : Text} (h : sep ∉ s) :
    splitFirst sep s = none := by
  induction s with
  | nil => rfl
  | cons c t ih =>
    simp only [List.mem_cons, not_or] at h
    rw [splitFirst.eq_def]
    simp only [if_neg (fun hh => h.1 (Eq.symm hh))]
    rw [ih h.2]
    rfl

theorem splitFirst_append {sep : Char} {a : Text} (h : sep ∉ a) (b : Text) :
    splitFirst sep (a ++ sep :: b) = some (a, b) := by
  induction a with
  | nil =>
    simp only [List.nil_append]
    rw [splitFirst.eq_def]
    simp
  | cons c t ih =>
    simp only [List.mem_cons, not_or] at h
    rw [List.cons_append, splitFirst.eq_def]
    simp only [if_neg (fun hh => h.1 (Eq.symm hh))]
    rw [ih h.2]
    rfl

theorem PlainChar.ne_lf {ch : Char} (h : PlainChar ch) : ch ≠ '\n' := by
  intro h2
  rw [h2] at h
  exact absurd h.2.2.2.2 (by decide)

theorem PlainChar.clean {ch : Char} (h : PlainChar ch) :
    ¬ ch = '\r' ∧ isLB ch = false := ⟨h.2.2.2.1, h.2.2.2.2⟩

/-- Plain text is fixed by `escape_text`. -/
theorem escape_plainText {s : Text} (h : PlainText s) : escape_text s = s :=
  escape_plain s (fun ch hch =>
    ⟨(h ch hch).1, (h ch hch).2.1, (h ch hch).2.2.1, (h ch hch).ne_lf⟩)

/-- Plain text is fixed by `unescape_text`. -/
theorem unescape_plainText {s : Text} (h : PlainText s) : unescape_text s = s :=
  unescape_plain s (fun hm => absurd (h _ hm).1 (by simp))

/-- Parse a parameterless property line. -/
theorem parseLine_scalar (nm v : Text)
    (hnm : ∀ ch ∈ nm, ch ≠ ':' ∧ ch ≠ ';') (hup : pyUpper nm = nm)
    (hv : '\\' ∉ v) :
    parseLine (nm ++ (':' :: v)) = some (nm, ⟨[], v⟩) := by
  rw [parseLine, splitFirst_append (fun hm => ((hnm _ hm).1 rfl))]
  simp only
  rw [pySplit_nosep (fun hm => ((hnm _ hm).2 rfl))]
  simp [parseParams, hup, unescape_plain v hv]

/-- Parse a property line with a single `TYPE` parameter. -/
theorem parseLine_typed (nm : Text) (ts : List Text) (v : Text)
    (hnm : ∀ ch ∈ nm, ch ≠ ':' ∧ ch ≠ ';') (hup : pyUpper nm = nm)
    (hts : ts ≠ []) (htags : ∀ t ∈ ts, ∀ ch ∈ t, ch ≠ ':' ∧ ch ≠ ';' ∧ ch ≠ ',')
    (hv : '\\' ∉ v) :
    parseLine (nm ++ (T (";TYPE=") ++ pyJoin (T (",")) ts) ++ (':' :: v)) =
      some (nm, ⟨[(T ("type"), ts)], v⟩) := by
  have hjoin_chars : ∀ ch ∈ pyJoin (T (",")) ts, ch ≠ ':' ∧ ch ≠ ';' := by
    intro ch hch
    rcases pyJoin_chars hch with hs | ⟨p, hp, hc⟩
    · rw [show T (",") = [','] from by decide] at hs
      simp at hs
      subst hs
      exact ⟨by decide, by decide⟩
    · exact ⟨(htags p hp ch hc).1, (htags p hp ch hc).2.1⟩
  have hkey : ∀ ch ∈ nm ++ (T (";TYPE=") ++ pyJoin (T (",")) ts), ch ≠ ':' := by
    intro ch hch
    rcases List.mem_append.1 hch with hn | hrest
    · exact (hnm ch hn).1
    · rcases List.mem_append.1 hrest with hfix | hj
      · intro h2
        rw [h2] at hfix
        rw [show T (";TYPE=") = [';', 'T', 'Y', 'P', 'E', '='] from by decide] at hfix
        exact absurd hfix (by decide)
      · exact (hjoin_chars ch hj).1
  have hTypeNoSemi : ';' ∉ T ("TYPE=") ++ pyJoin (T (",")) ts := by
    intro hm
    rcases List.mem_append.1 hm with hfix | hj
    · rw [show T ("TYPE=") = ['T', 'Y', 'P', 'E', '='] from by decide] at hfix
      exact absurd hfix (by decide)
    · exact (hjoin_chars _ hj).2 rfl
  rw [parseLine, splitFirst_append (fun hm => hkey _ hm rfl)]
  simp only
  have hshape2 : nm ++ (T (";TYPE=") ++ pyJoin (T (",")) ts) =
      nm ++ ';' :: (T ("TYPE=") ++ pyJoin (T (",")) ts) := by
    rw [show T (";TYPE=") = ';' :: T ("TYPE=") from by decide]
    simp
  rw [hshape2, pySplit_append (fun hm => (hnm _ hm).2 rfl),
      pySplit_nosep hTypeNoSemi]
  simp only [List.headD_cons, List.tail_cons]
  have hparams : parseParams [T ("TYPE=") ++ pyJoin (T (",")) ts] =
      [(T ("type"), ts)] := by
    rw [parseParams]
    simp only [List.foldl_cons, List.foldl_nil]
    rw [show T ("TYPE=") ++ pyJoin (T (",")) ts =
      T ("TYPE") ++ '=' :: pyJoin (T (",")) ts from by
        rw [show T ("TYPE=") = T ("TYPE") ++ ['='] from by decide]; simp]
    rw [splitFirst_append (by decide)]
    simp only
    rw [show pyLower (T ("TYPE")) = T ("type") from by decide]
    rw [show T (",") = [','] from by decide]
    rw [pySplit_join ts hts (fun p hp hm => (htags p hp ',' hm).2.2 rfl)]
  rw [hup, hparams, unescape_plain v hv]

theorem pmAdd_notMem {pm : List (Text × List Entry)} {name : Text}
    (h : ∀ kv ∈ pm, kv.1 ≠ name) (e : Entry) :
    pmAdd pm name e = pm ++ [(name, [e])] := by
  induction pm with
  | nil => rfl
  | cons kv rest ih =>
    rw [pmAdd.eq_def]
    obtain ⟨k, es⟩ := kv
    simp only
    rw [if_neg (h (k, es) (by simp)), ih (fun x hx => h x (by simp [hx]))]
    simp

theorem pmAdd_found {pm : List (Text × List Entry)} {name : Text}
    (h : ∀ kv ∈ pm, kv.1 ≠ name) (l : List Entry) (e : Entry) :
    pmAdd (pm ++ [(name, l)]) name e = pm ++ [(name, l ++ [e])] := by
  induction pm with
  | nil => simp [pmAdd]
  | cons kv rest ih =>
    obtain ⟨k, es⟩ := kv
    rw [List.cons_append, pmAdd.eq_def]
    simp only
    rw [if_neg (h (k, es) (by simp)), ih (fun x hx => h x (by simp [hx]))]
    simp

theorem pmLookup_append (name : Text) (xs ys : List (Text × List Entry)) :
    pmLookup name (xs ++ ys) =
      match pmLookup name xs with
      | some r => some r
      | none => pmLookup name ys := by
  induction xs with
  | nil => rfl
  | cons kv rest ih =>
    obtain ⟨k, es⟩ := kv
    have hL : pmLookup name ((k, es) :: (rest ++ ys)) =
        if k = name then some es else pmLookup name (rest ++ ys) := by
      rw [pmLookup.eq_def]
    have hR : pmLookup name ((k, es) :: rest) =
        if k = name then some es else pmLookup name rest := by
      rw [pmLookup.eq_def]
    rw [List.cons_append, hL, hR]
    by_cases h : k = name
    · simp [h]
    · rw [if_neg h, if_neg h, ih]

theorem pmLookup_notMem {name : Text} {pm : List (Text × List Entry)}
    (h : ∀ kv ∈ pm, kv.1 ≠ name) : pmLookup name pm = none := by
  induction pm with
  | nil => rfl
  | cons kv rest ih =>
    obtain ⟨k, es⟩ := kv
    rw [pmLookup.eq_def]
    simp only [if_neg (h (k, es) (by simp))]
    exact ih (fun x hx => h x (by simp [hx]))

/-- Accumulating a batch of same-named parsed lines into a fresh key
    groups their entries in order at the end of the map. -/
theorem pmBatch {α : Type} {name : Text} {line : α → Text} {f : α → Entry}
    (xs : List α) (hparse : ∀ x ∈ xs, parseLine (line x) = some (name, f x)) :
    ∀ pm, (∀ kv ∈ pm, kv.1 ≠ name) →
      List.foldl pmStep pm (xs.map line) =
        pm ++ (if xs.isEmpty then [] else [(name, xs.map f)]) := by
  induction xs with
  | nil => intro pm _; simp
  | cons x rest ih =>
    intro pm hpm
    simp only [List.map_cons, List.foldl_cons]
    rw [pmStep, hparse x (by simp)]
    simp only
    rw [pmAdd_notMem hpm (f x)]
    have hgo : ∀ (ys : List α) (l : List Entry),
        (∀ y ∈ ys, parseLine (line y) = some (name, f y)) →
        List.foldl pmStep (pm ++ [(name, l)]) (ys.map line) =
          pm ++ [(name, l ++ ys.map f)] := by
      intro ys
      induction ys with
      | nil => intro l _; simp
      | cons y yrest ihy =>
        intro l hy
        simp only [List.map_cons, List.foldl_cons]
        rw [pmStep, hy y (by simp)]
        simp only
        rw [pmAdd_found hpm l (f y), ihy (l ++ [f y]) (fun z hz => hy z (by simp [hz]))]
        simp
    rw [hgo rest [f x] (fun z hz => hparse z (by simp [hz]))]
    simp

theorem processEntry_begin (c : Contact) (e : Entry) :
    processEntry c (T ("BEGIN")) e = .ok c := by
  simp [processEntry, T]

theorem processEntry_version (c : Contact) (e : Entry) :
    processEntry c (T ("VERSION")) e = .ok c := by
  simp [processEntry, T]

theorem processEntry_end (c : Contact) (e : Entry) :
    processEntry c (T ("END")) e = .ok c := by
  simp [processEntry, T]

theorem processEntry_fn (c : Contact) (e : Entry) :
    processEntry c (T ("FN")) e =
      .ok { c with custom := customAdd c.custom (T ("FN")) e.value } := by
  simp [processEntry, T]

theorem processEntry_email (c : Contact) (e : Entry) :
    processEntry c (T ("EMAIL")) e =
      .ok { c with email := c.email ++ [⟨e.value, some (getType e)⟩] } := by
  simp [processEntry, T]

theorem processEntry_tel (c : Contact) (e : Entry) :
    processEntry c (T ("TEL")) e =
      .ok { c with tel := c.tel ++ [⟨e.value, some (getType e)⟩] } := by
  simp [processEntry, T]

theorem processEntry_adr (c : Contact) (e : Entry) :
    processEntry c (T ("ADR")) e =
      .ok { c with adr := c.adr ++ [⟨some (pySplit ';' e.value), some (getType e)⟩] } := by
  simp [processEntry, T]

theorem processEntry_url (c : Contact) (e : Entry) :
    processEntry c (T ("URL")) e = .ok { c with url := c.url ++ [e.value] } := by
  simp [processEntry, T]

theorem processEntry_photo (c : Contact) (e : Entry)
    (h : lookupParam (T ("ENCODING")) e.params = none) :
    processEntry c (T ("PHOTO")) e =
      .ok { c with custom := customAdd c.custom (T ("PHOTO")) e.value } := by
  rw [show (T ("ENCODING") : Text) = ['E', 'N', 'C', 'O', 'D', 'I', 'N', 'G'] from by
    decide] at h
  simp [processEntry, T, h]

theorem processEntries_cons_ok {c c2 : Contact} {name : Text} {e : Entry}
    (h : processEntry c name e = .ok c2) (rest : List Entry) :
    processEntries c name (e :: rest) = processEntries c2 name rest := by
  rw [processEntries, h]

theorem processEntries_skip {name : Text}
    (hskip : ∀ (c : Contact) (e : Entry), processEntry c name e = .ok c)
    (c : Contact) (es : List Entry) : processEntries c name es = .ok c := by
  induction es with
  | nil => rfl
  | cons e rest ih => rw [processEntries_cons_ok (hskip c e), ih]

theorem processEntries_email (c : Contact) :
    ∀ (l : List ParamEntry),
      (∀ e ∈ l, ∃ ts, e.type = some ts) →
      processEntries c (T ("EMAIL"))
          (l.map (fun e => ⟨[(T ("type"), e.type.getD [])], e.value⟩)) =
        .ok { c with email := c.email ++ l } := by
  intro l
  induction l generalizing c with
  | nil => intro _; simp [processEntries]
  | cons e rest ih =>
    intro h
    obtain ⟨ts, hts⟩ := h e (by simp)
    have hgt : getType ⟨[(T ("type"), e.type.getD [])], e.value⟩ = e.type.getD [] := by
      simp [getType, lookupParam]
    have hentry : (⟨e.value, some (e.type.getD [])⟩ : ParamEntry) = e := by
      obtain ⟨v, t⟩ := e
      simp at hts
      simp [hts]
    have hstep : processEntry c (T ("EMAIL"))
        ⟨[(T ("type"), e.type.getD [])], e.value⟩ =
        .ok { c with email := c.email ++ [e] } := by
      rw [processEntry_email, hgt, hentry]
    simp only [List.map_cons]
    rw [processEntries_cons_ok hstep, ih _ (fun x hx => h x (by simp [hx]))]
    simp

theorem processEntries_tel (c : Contact) :
    ∀ (l : List ParamEntry),
      (∀ e ∈ l, ∃ ts, e.type = some ts) →
      processEntries c (T ("TEL"))
          (l.map (fun e => ⟨[(T ("type"), e.type.getD [])], e.value⟩)) =
        .ok { c with tel := c.tel ++ l } := by
  intro l
  induction l generalizing c with
  | nil => intro _; simp [processEntries]
  | cons e rest ih =>
    intro h
    obtain ⟨ts, hts⟩ := h e (by simp)
    have hgt : getType ⟨[(T ("type"), e.type.getD [])], e.value⟩ = e.type.getD [] := by
      simp [getType, lookupParam]
    have hentry : (⟨e.value, some (e.type.getD [])⟩ : ParamEntry) = e := by
      obtain ⟨v, t⟩ := e
      simp at hts
      simp [hts]
    have hstep : processEntry c (T ("TEL"))
        ⟨[(T ("type"), e.type.getD [])], e.value⟩ =
        .ok { c with tel := c.tel ++ [e] } := by
      rw [processEntry_tel, hgt, hentry]
    simp only [List.map_cons]
    rw [processEntries_cons_ok hstep, ih _ (fun x hx => h x (by simp [hx]))]
    simp

theorem processEntries_url (c : Contact) :
    ∀ (l : List Text),
      processEntries c (T ("URL")) (l.map (fun v => ⟨[], v⟩)) =
        .ok { c with url := c.url ++ l } := by
  intro l
  induction l generalizing c with
  | nil => simp [processEntries]
  | cons v rest ih =>
    have hstep : processEntry c (T ("URL")) ⟨[], v⟩ =
        .ok { c with url := c.url ++ [v] } := by
      rw [processEntry_url]
    simp only [List.map_cons]
    rw [processEntries_cons_ok hstep, ih]
    simp

theorem populateAll_cons_ok {c c2 : Contact} {name : Text} {es : List Entry}
    (h : processEntries c name es = .ok c2) (rest : List (Text × List Entry)) :
    populateAll c ((name, es) :: rest) = populateAll c2 rest := by
  rw [populateAll, h]

theorem fold75_chars {l : Text} {seg : Text} (hs : seg ∈ fold75 l) {ch : Char}
    (hc : ch ∈ seg) : ch = ' ' ∨ ch ∈ l := by
  obtain ⟨rest, heq, -, -, hchars⟩ := fold75_spec l
  rw [heq] at hs
  rcases List.mem_cons.1 hs with rfl | hs2
  · exact Or.inr (List.mem_of_mem_take hc)
  · exact hchars seg hs2 ch hc

theorem populateAll_append_ok {c c2 : Contact} {xs : List (Text × List Entry)}
    (h : populateAll c xs = .ok c2) (ys : List (Text × List Entry)) :
    populateAll c (xs ++ ys) = populateAll c2 ys := by
  induction xs generalizing c with
  | nil =>
    simp only [populateAll] at h
    cases h
    simp
  | cons p rest ih =>
    obtain ⟨name, es⟩ := p
    rw [populateAll.eq_def] at h
    rw [List.cons_append, populateAll.eq_def]
    simp only at h ⊢
    cases hpe : processEntries c name es with
    | ok c3 =>
      rw [hpe] at h
      exact ih h
    | error er => rw [hpe] at h; simp at h

theorem collectCont_cons_new {l : Text} (hnc : ¬ contHead l) (cur : Text)
    (rest : List Text) :
    collectCont cur (l :: rest) = cur :: collectCont l rest := by
  rw [collectCont, if_neg hnc]

set_option maxHeartbeats 1000000

theorem fieldLines_good (c : Contact) (h : GoodContact c) :
    fieldLines c =
      (T ("FN:") ++ c.fn) ::
        (c.email.map (fun e =>
            T ("EMAIL") ++ (T (";TYPE=") ++ pyJoin (T (",")) (e.type.getD [])) ++
              (':' :: e.value))
          ++ c.tel.map (fun e =>
            T ("TEL") ++ (T (";TYPE=") ++ pyJoin (T (",")) (e.type.getD [])) ++
              (':' :: e.value))
          ++ c.url.map (fun u => T ("URL:") ++ u)) := by
  obtain ⟨hfn, hfnp, hem, htel, hurl, hn, hnick, hpp, hpd, hbd, han, hg, hadr,
    horg, hti, hro, himp, huid, hcat, hnote, hpro, hrev, htz, hgeo, hcust, hsp⟩ := h
  simp only [fieldLines, hn, hnick, hpd, hbd, han, hg, hadr, horg, hti, hro,
    himp, huid, hcat, hnote, hpro, hrev, htz, hgeo, hcust, hsp]
  rw [escape_plainText hfnp]
  simp only [List.map_nil, List.nil_append, List.append_nil, List.isEmpty_nil,
    if_true, List.cons_append]
  have hemap : c.email.map
      (fun e => T ("EMAIL") ++ typeParam e.type ++ (':' :: escape_text e.value)) =
      c.email.map (fun e =>
        T ("EMAIL") ++ (T (";TYPE=") ++ pyJoin (T (",")) (e.type.getD [])) ++
          (':' :: e.value)) := by
    apply List.map_congr_left
    intro e he
    obtain ⟨hev, ts, hts, -, -⟩ := hem e he
    rw [escape_plainText hev, hts]
    simp [typeParam]
  have htmap : c.tel.map
      (fun t => T ("TEL") ++ typeParam t.type ++ (':' :: escape_text t.value)) =
      c.tel.map (fun e =>
        T ("TEL") ++ (T (";TYPE=") ++ pyJoin (T (",")) (e.type.getD [])) ++
          (':' :: e.value)) := by
    apply List.map_congr_left
    intro e he
    obtain ⟨hev, ts, hts, -, -⟩ := htel e he
    rw [escape_plainText hev, hts]
    simp [typeParam]
  have humap : c.url.map (fun u => T ("URL:") ++ escape_text u) =
      c.url.map (fun u => T ("URL:") ++ u) := by
    apply List.map_congr_left
    intro u hu
    rw [escape_plainText (hurl u hu)]
  rw [hemap, htmap, humap]

theorem good_pm (c : Contact) (h : GoodContact c) :
    buildPM (T ("BEGIN:VCARD") :: T ("VERSION:4.0") :: fieldLines c ++ [T ("END:VCARD")]) =
      ([(T ("BEGIN"), [⟨[], T ("VCARD")⟩]), (T ("VERSION"), [⟨[], T ("4.0")⟩]),
        (T ("FN"), [⟨[], c.fn⟩])]
        ++ (if c.email.isEmpty then [] else
            [(T ("EMAIL"), c.email.map (fun e => ⟨[(T ("type"), e.type.getD [])], e.value⟩))])
        ++ (if c.tel.isEmpty then [] else
            [(T ("TEL"), c.tel.map (fun e => ⟨[(T ("type"), e.type.getD [])], e.value⟩))])
        ++ (if c.url.isEmpty then [] else
            [(T ("URL"), c.url.map (fun v => ⟨[], v⟩))])
        ++ [(T ("END"), [⟨[], T ("VCARD")⟩])]) := by
  have hgood := h
  obtain ⟨hfn, hfnp, hem, htel, hurl, -⟩ := h
  -- parse facts for the symbolic lines
  have hpFN : parseLine (T ("FN:") ++ c.fn) = some (T ("FN"), ⟨[], c.fn⟩) := by
    rw [show (T ("FN:") : Text) = T ("FN") ++ [':'] from by decide, List.append_assoc,
        List.singleton_append]
    exact parseLine_scalar (T ("FN")) c.fn (by decide) (by decide)
      (fun hm => absurd (hfnp _ hm).1 (by simp))
  have hpEM : ∀ e ∈ c.email,
      parseLine (T ("EMAIL") ++ (T (";TYPE=") ++ pyJoin (T (",")) (e.type.getD [])) ++
        (':' :: e.value)) =
      some (T ("EMAIL"), ⟨[(T ("type"), e.type.getD [])], e.value⟩) := by
    intro e he
    obtain ⟨hev, ts, hts, htsne, htags⟩ := hem e he
    apply parseLine_typed (T ("EMAIL")) _ _ (by decide) (by decide)
    · rw [hts]; simpa using htsne
    · intro t ht ch hch
      rw [hts] at ht
      simp only [Option.getD_some] at ht
      have := htags t ht ch hch
      exact ⟨this.2, (this.1).2.1, (this.1).2.2.1⟩
    · exact fun hm => absurd (hev _ hm).1 (by simp)
  have hpTEL : ∀ e ∈ c.tel,
      parseLine (T ("TEL") ++ (T (";TYPE=") ++ pyJoin (T (",")) (e.type.getD [])) ++
        (':' :: e.value)) =
      some (T ("TEL"), ⟨[(T ("type"), e.type.getD [])], e.value⟩) := by
    intro e he
    obtain ⟨hev, ts, hts, htsne, htags⟩ := htel e he
    apply parseLine_typed (T ("TEL")) _ _ (by decide) (by decide)
    · rw [hts]; simpa using htsne
    · intro t ht ch hch
      rw [hts] at ht
      simp only [Option.getD_some] at ht
      have := htags t ht ch hch
      exact ⟨this.2, (this.1).2.1, (this.1).2.2.1⟩
    · exact fun hm => absurd (hev _ hm).1 (by simp)
  have hpURL : ∀ u ∈ c.url,
      parseLine (T ("URL:") ++ u) = some (T ("URL"), ⟨[], u⟩) := by
    intro u hu
    rw [show (T ("URL:") : Text) = T ("URL") ++ [':'] from by decide, List.append_assoc,
        List.singleton_append]
    exact parseLine_scalar (T ("URL")) u (by decide) (by decide)
      (fun hm => absurd (hurl u hu _ hm).1 (by simp))
  have pmStep_parsed : ∀ {line name : Text} {e : Entry},
      parseLine line = some (name, e) → ∀ pm, pmStep pm line = pmAdd pm name e := by
    intro line name e hp pm
    rw [pmStep, hp]
  rw [fieldLines_good c hgood, buildPM]
  simp only [List.foldl_cons, List.foldl_append, List.foldl_nil]
  -- concrete first steps
  rw [show pmStep [] (T ("BEGIN:VCARD")) = [(T ("BEGIN"), [⟨[], T ("VCARD")⟩])] from by decide]
  rw [show pmStep [(T ("BEGIN"), [⟨[], T ("VCARD")⟩])] (T ("VERSION:4.0")) =
    [(T ("BEGIN"), [⟨[], T ("VCARD")⟩]), (T ("VERSION"), [⟨[], T ("4.0")⟩])] from by decide]
  rw [show pmStep [(T ("BEGIN"), [⟨[], T ("VCARD")⟩]), (T ("VERSION"), [⟨[], T ("4.0")⟩])]
      (T ("FN:") ++ c.fn) =
      [(T ("BEGIN"), [⟨[], T ("VCARD")⟩]), (T ("VERSION"), [⟨[], T ("4.0")⟩]),
        (T ("FN"), [⟨[], c.fn⟩])] from by
    rw [pmStep_parsed hpFN, pmAdd_notMem (by intro kv hkv; fin_cases hkv <;> simp [T]) _]
    rfl]
  have hIfKey : ∀ (b : Bool) (nm : Text) (es : List Entry) (kv : Text × List Entry),
      kv ∈ (if b then ([] : List (Text × List Entry)) else [(nm, es)]) → kv.1 = nm := by
    intro b nm es kv hkv
    cases b
    · simp at hkv; rw [hkv]
    · simp at hkv
  have hbE := @pmBatch ParamEntry (T ("EMAIL"))
    (fun e : ParamEntry =>
      T ("EMAIL") ++ (T (";TYPE=") ++ pyJoin (T (",")) (e.type.getD [])) ++ (':' :: e.value))
    (fun e : ParamEntry => (⟨[(T ("type"), e.type.getD [])], e.value⟩ : Entry))
    c.email hpEM
    [(T ("BEGIN"), [⟨[], T ("VCARD")⟩]), (T ("VERSION"), [⟨[], T ("4.0")⟩]),
      (T ("FN"), [⟨[], c.fn⟩])]
    (by intro kv hkv; fin_cases hkv <;> simp [T])
  rw [hbE]
  have hbT := @pmBatch ParamEntry (T ("TEL"))
    (fun e : ParamEntry =>
      T ("TEL") ++ (T (";TYPE=") ++ pyJoin (T (",")) (e.type.getD [])) ++ (':' :: e.value))
    (fun e : ParamEntry => (⟨[(T ("type"), e.type.getD [])], e.value⟩ : Entry))
    c.tel hpTEL
    ([(T ("BEGIN"), [⟨[], T ("VCARD")⟩]), (T ("VERSION"), [⟨[], T ("4.0")⟩]),
      (T ("FN"), [⟨[], c.fn⟩])] ++
      (if c.email.isEmpty then [] else
        [(T ("EMAIL"), c.email.map (fun e => ⟨[(T ("type"), e.type.getD [])], e.value⟩))]))
    (by
      intro kv hkv
      rcases List.mem_append.1 hkv with h1 | h2
      · fin_cases h1 <;> simp [T]
      · rw [hIfKey _ _ _ kv h2]; simp [T])
  rw [hbT]
  have hbU := @pmBatch Text (T ("URL"))
    (fun u : Text => T ("URL:") ++ u)
    (fun u : Text => (⟨[], u⟩ : Entry))
    c.url hpURL
    (([(T ("BEGIN"), [⟨[], T ("VCARD")⟩]), (T ("VERSION"), [⟨[], T ("4.0")⟩]),
      (T ("FN"), [⟨[], c.fn⟩])] ++
      (if c.email.isEmpty then [] else
        [(T ("EMAIL"), c.email.map (fun e => ⟨[(T ("type"), e.type.getD [])], e.value⟩))])) ++
      (if c.tel.isEmpty then [] else
        [(T ("TEL"), c.tel.map (fun e => ⟨[(T ("type"), e.type.getD [])], e.value⟩))]))
    (by
      intro kv hkv
      rcases List.mem_append.1 hkv with h1 | h2
      · rcases List.mem_append.1 h1 with h3 | h4
        · fin_cases h3 <;> simp [T]
        · rw [hIfKey _ _ _ kv h4]; simp [T]
      · rw [hIfKey _ _ _ kv h2]; simp [T])
  rw [hbU]
  have hpEND : parseLine (T ("END:VCARD")) = some (T ("END"), ⟨[], T ("VCARD")⟩) := by
    decide
  rw [pmStep_parsed hpEND, pmAdd_notMem (by
    intro kv hkv
    rcases List.mem_append.1 hkv with h1 | h2
    · rcases List.mem_append.1 h1 with h3 | h4
      · rcases List.mem_append.1 h3 with h5 | h6
        · fin_cases h5 <;> simp [T]
        · rw [hIfKey _ _ _ kv h6]; simp [T]
      · rw [hIfKey _ _ _ kv h4]; simp [T]
    · rw [hIfKey _ _ _ kv h2]; simp [T])]

theorem good_lines (c : Contact) (h : GoodContact c) :
    unfold_lines (splitlines (Contact.to_vcard c).2) =
      T ("BEGIN:VCARD") :: T ("VERSION:4.0") :: fieldLines c ++ [T ("END:VCARD")] := by
  have hgood := h
  obtain ⟨hfn, hfnp, hem, htel, hurl, hn, hnick, hpp, -⟩ := h
  have hembed : embedStep c = c := by simp [embedStep, hpp]
  have htext : (Contact.to_vcard c).2 = mkVCard (vcardPhysLines c) := by
    rw [Contact.to_vcard]
    simp only [hembed]
    exact mkVCard_eq_join _ (by simp [vcardPhysLines])
  -- every logical property line is clean and well-headed
  have hlog : ∀ log ∈ fieldLines c,
      (∀ ch ∈ log, ¬ ch = '\r' ∧ isLB ch = false) ∧ log ≠ [] ∧ ¬ contHead log := by
    intro log hlogm
    rw [fieldLines_good c hgood] at hlogm
    rcases List.mem_cons.1 hlogm with rfl | hrest
    · refine ⟨?_, ?_, ?_⟩
      · intro ch hch
        rcases List.mem_append.1 hch with hfix | hm
        · rw [show (T ("FN:") : Text) = ['F', 'N', ':'] from by decide] at hfix
          fin_cases hfix <;> decide
        · exact (hfnp ch hm).clean
      · simp [show (T ("FN:") : Text) = 'F' :: T ("N:") from by decide]
      · simp [show (T ("FN:") : Text) = 'F' :: T ("N:") from by decide, contHead]
    rcases List.mem_append.1 hrest with hml | humap
    rcases List.mem_append.1 hml with hme | hmt
    · obtain ⟨e, he, rfl⟩ := List.mem_map.1 hme
      obtain ⟨hev, ts, hts, htsne, htags⟩ := hem e he
      refine ⟨?_, ?_, ?_⟩
      · intro ch hch
        rcases List.mem_append.1 hch with hk | hv
        · rcases List.mem_append.1 hk with hfix | hty
          · rw [show (T ("EMAIL") : Text) = ['E', 'M', 'A', 'I', 'L'] from by decide] at hfix
            fin_cases hfix <;> decide
          · rcases List.mem_append.1 hty with hfix2 | hj
            · rw [show (T (";TYPE=") : Text) =
                [';', 'T', 'Y', 'P', 'E', '='] from by decide] at hfix2
              fin_cases hfix2 <;> decide
            · rcases pyJoin_chars hj with hs | ⟨p, hp, hcp⟩
              · rw [show (T (",") : Text) = [','] from by decide] at hs
                simp at hs
                subst hs
                decide
              · rw [hts] at hp
                simp only [Option.getD_some] at hp
                exact ((htags p hp ch hcp).1).clean
        · rcases List.mem_cons.1 hv with rfl | hvm
          · decide
          · exact (hev ch hvm).clean
      · simp [show (T ("EMAIL") : Text) = 'E' :: T ("MAIL") from by decide]
      · simp [show (T ("EMAIL") : Text) = 'E' :: T ("MAIL") from by decide, contHead]
    · obtain ⟨e, he, rfl⟩ := List.mem_map.1 hmt
      obtain ⟨hev, ts, hts, htsne, htags⟩ := htel e he
      refine ⟨?_, ?_, ?_⟩
      · intro ch hch
        rcases List.mem_append.1 hch with hk | hv
        · rcases List.mem_append.1 hk with hfix | hty
          · rw [show (T ("TEL") : Text) = ['T', 'E', 'L'] from by decide] at hfix
            fin_cases hfix <;> decide
          · rcases List.mem_append.1 hty with hfix2 | hj
            · rw [show (T (";TYPE=") : Text) =
                [';', 'T', 'Y', 'P', 'E', '='] from by decide] at hfix2
              fin_cases hfix2 <;> decide
            · rcases pyJoin_chars hj with hs | ⟨p, hp, hcp⟩
              · rw [show (T (",") : Text) = [','] from by decide] at hs
                simp at hs
                subst hs
                decide
              · rw [hts] at hp
                simp only [Option.getD_some] at hp
                exact ((htags p hp ch hcp).1).clean
        · rcases List.mem_cons.1 hv with rfl | hvm
          · decide
          · exact (hev ch hvm).clean
      · simp [show (T ("TEL") : Text) = 'T' :: T ("EL") from by decide]
      · simp [show (T ("TEL") : Text) = 'T' :: T ("EL") from by decide, contHead]
    · obtain ⟨u, huu, rfl⟩ := List.mem_map.1 humap
      refine ⟨?_, ?_, ?_⟩
      · intro ch hch
        rcases List.mem_append.1 hch with hfix | hm
        · rw [show (T ("URL:") : Text) = ['U', 'R', 'L', ':'] from by decide] at hfix
          fin_cases hfix <;> decide
        · exact (hurl u huu ch hm).clean
      · simp [show (T ("URL:") : Text) = 'U' :: T ("RL:") from by decide]
      · simp [show (T ("URL:") : Text) = 'U' :: T ("RL:") from by decide, contHead]
  have hsplit : splitlines (mkVCard (vcardPhysLines c)) = vcardPhysLines c := by
    apply splitlines_mkVCard
    intro l hl
    rw [vcardPhysLines] at hl
    rcases List.mem_append.1 hl with hl1 | hl2
    rcases List.mem_append.1 hl1 with hl3 | hl4
    · fin_cases hl3 <;> decide
    · rw [List.mem_flatten] at hl4
      obtain ⟨segs, hsegs, hlseg⟩ := hl4
      obtain ⟨log, hlog2, rfl⟩ := List.mem_map.1 hsegs
      intro ch hch
      rcases fold75_chars hlseg hch with rfl | hchlog
      · decide
      · exact (hlog log hlog2).1 ch hchlog
    · simp at hl2
      subst hl2
      decide
  rw [htext, hsplit, vcardPhysLines]
  have hBV : (([T ("BEGIN:VCARD"), T ("VERSION:4.0")] : List Text) ++
      ((fieldLines c).map fold75).flatten ++ [T ("END:VCARD")]) =
      T ("BEGIN:VCARD") :: T ("VERSION:4.0") ::
        (((fieldLines c).map fold75).flatten ++ [T ("END:VCARD")]) := by
    simp
  have hVnc : ¬ contHead (T ("VERSION:4.0")) := by decide
  have hEnc : ¬ contHead (T ("END:VCARD")) := by decide
  rw [hBV, unfold_lines, collectCont_cons_new hVnc,
      collectCont_folds (fieldLines c)
        (fun l hl => ⟨(hlog l hl).2.1, (hlog l hl).2.2⟩) _ _ hEnc]
  simp

theorem roundtrip_good (c : Contact) (h : GoodContact c) :
    Contact.from_vcard (Contact.to_vcard c).2 =
      .ok { fn := c.fn, email := c.email, tel := c.tel, url := c.url,
            custom := [(T ("FN"), CustomVal.list [c.fn])] } := by
  have hgood := h
  obtain ⟨-, -, hem, htel, -⟩ := h
  rw [Contact.from_vcard, good_lines c hgood, good_pm c hgood]
  have hfind : pmLookup (T ("FN"))
      (([(T ("BEGIN"), [⟨[], T ("VCARD")⟩]), (T ("VERSION"), [⟨[], T ("4.0")⟩]),
        (T ("FN"), [⟨[], c.fn⟩])]
        ++ (if c.email.isEmpty then [] else
            [(T ("EMAIL"), c.email.map (fun e => ⟨[(T ("type"), e.type.getD [])], e.value⟩))])
        ++ (if c.tel.isEmpty then [] else
            [(T ("TEL"), c.tel.map (fun e => ⟨[(T ("type"), e.type.getD [])], e.value⟩))])
        ++ (if c.url.isEmpty then [] else
            [(T ("URL"), c.url.map (fun v => ⟨[], v⟩))])
        ++ [(T ("END"), [⟨[], T ("VCARD")⟩])])) = some [⟨[], c.fn⟩] := by
    simp [pmLookup, T]
  
  have hifkey2 : ∀ (b : Bool) (nm : Text) (es : List Entry)
      (kv : Text × List Entry), kv ∈ (if b then ([] : List (Text × List Entry))
        else [(nm, es)]) → kv.1 = nm := by
    intro b nm es kv hkv
    cases b
    · simp at hkv; rw [hkv]
    · simp at hkv
  have hN : pmLookup (T ("N"))
      (([(T ("BEGIN"), [⟨[], T ("VCARD")⟩]), (T ("VERSION"), [⟨[], T ("4.0")⟩]),
        (T ("FN"), [⟨[], c.fn⟩])]
        ++ (if c.email.isEmpty then [] else
            [(T ("EMAIL"), c.email.map (fun e => ⟨[(T ("type"), e.type.getD [])], e.value⟩))])
        ++ (if c.tel.isEmpty then [] else
            [(T ("TEL"), c.tel.map (fun e => ⟨[(T ("type"), e.type.getD [])], e.value⟩))])
        ++ (if c.url.isEmpty then [] else
            [(T ("URL"), c.url.map (fun v => ⟨[], v⟩))])
        ++ [(T ("END"), [⟨[], T ("VCARD")⟩])])) = none := by
    apply pmLookup_notMem
    intro kv hkv
    rcases List.mem_append.1 hkv with h1 | h2
    rcases List.mem_append.1 h1 with h3 | h4
    rcases List.mem_append.1 h3 with h5 | h6
    rcases List.mem_append.1 h5 with h7 | h8
    · fin_cases h7 <;> simp [T]
    · rw [hifkey2 _ _ _ kv h8]; simp [T]
    · rw [hifkey2 _ _ _ kv h6]; simp [T]
    · rw [hifkey2 _ _ _ kv h4]; simp [T]
    · simp at h2
      rw [h2]
      simp [T]
  simp only [hfind, hN, List.headD_cons]
  simp only [List.cons_append, List.nil_append, List.append_assoc]
  rw [populateAll_cons_ok (processEntries_skip processEntry_begin _ _)]
  rw [populateAll_cons_ok (processEntries_skip processEntry_version _ _)]
  have hfnpe : ∀ cx : Contact, processEntries cx (T ("FN")) [⟨[], c.fn⟩] =
      .ok { cx with custom := customAdd cx.custom (T ("FN")) c.fn } := by
    intro cx
    rw [processEntries_cons_ok (processEntry_fn cx ⟨[], c.fn⟩)]
    rfl
  rw [populateAll_cons_ok (hfnpe _)]
  
  
  have hgE : ∀ (cx : Contact) (REST : List (Text × List Entry)),
      populateAll cx ((if c.email.isEmpty then [] else
        [(T ("EMAIL"), c.email.map (fun e => ⟨[(T ("type"), e.type.getD [])], e.value⟩))])
          ++ REST) =
      populateAll { cx with email := cx.email ++ c.email } REST := by
    intro cx REST
    by_cases hemp : c.email.isEmpty
    · rw [if_pos hemp, List.isEmpty_iff.1 hemp]
      simp
    · rw [if_neg hemp, List.cons_append, List.nil_append,
        populateAll_cons_ok (processEntries_email cx c.email
          (fun e he => ((hem e he).2).imp (fun ts hh => hh.1)))]
  have hgT : ∀ (cx : Contact) (REST : List (Text × List Entry)),
      populateAll cx ((if c.tel.isEmpty then [] else
        [(T ("TEL"), c.tel.map (fun e => ⟨[(T ("type"), e.type.getD [])], e.value⟩))])
          ++ REST) =
      populateAll { cx with tel := cx.tel ++ c.tel } REST := by
    intro cx REST
    by_cases hemp : c.tel.isEmpty
    · rw [if_pos hemp, List.isEmpty_iff.1 hemp]
      simp
    · rw [if_neg hemp, List.cons_append, List.nil_append,
        populateAll_cons_ok (processEntries_tel cx c.tel
          (fun e he => ((htel e he).2).imp (fun ts hh => hh.1)))]
  have hgU : ∀ (cx : Contact) (REST : List (Text × List Entry)),
      populateAll cx ((if c.url.isEmpty then [] else
        [(T ("URL"), c.url.map (fun v => ⟨[], v⟩))]) ++ REST) =
      populateAll { cx with url := cx.url ++ c.url } REST := by
    intro cx REST
    by_cases hemp : c.url.isEmpty
    · rw [if_pos hemp, List.isEmpty_iff.1 hemp]
      simp
    · rw [if_neg hemp, List.cons_append, List.nil_append,
        populateAll_cons_ok (processEntries_url cx c.url)]
  rw [hgE, hgT, hgU,
      populateAll_cons_ok (processEntries_skip processEntry_end _ _)]
  rw [populateAll]
  simp [customAdd]

theorem processEntry_ok_iff (c : Contact) (name : Text) (e : Entry) :
    (∃ c2, processEntry c name e = .ok c2) ↔ entryOk name e := by
  by_cases h1 : name = T ("EMAIL")
  · subst h1; simp [processEntry, T, entryOk]
  by_cases h2 : name = T ("TEL")
  · subst h2; simp [processEntry, T, entryOk]
  by_cases h3 : name = T ("ADR")
  · subst h3; simp [processEntry, T, entryOk]
  by_cases h4 : name = T ("PHOTO")
  · subst h4
    by_cases henc : (lookupParam (T ("ENCODING")) e.params).isSome = true
    · rw [show (T ("ENCODING") : Text) =
        ['E', 'N', 'C', 'O', 'D', 'I', 'N', 'G'] from by decide] at henc
      simp [processEntry, T, entryOk, henc]
    · rw [show (T ("ENCODING") : Text) =
        ['E', 'N', 'C', 'O', 'D', 'I', 'N', 'G'] from by decide] at henc
      simp [processEntry, T, entryOk, henc]
  by_cases h5 : name = T ("BDAY")
  · subst h5
    cases hd : dateFromIso e.value <;> simp [processEntry, T, entryOk, hd]
  by_cases h6 : name = T ("ANNIVERSARY")
  · subst h6
    cases hd : dateFromIso e.value <;> simp [processEntry, T, entryOk, hd]
  by_cases h7 : name = T ("URL")
  · subst h7; simp [processEntry, T, entryOk]
  by_cases h8 : name = T ("IMPP")
  · subst h8; simp [processEntry, T, entryOk]
  by_cases h9 : name = T ("NICKNAME")
  · subst h9; simp [processEntry, T, entryOk]
  by_cases h10 : name = T ("UID")
  · subst h10; simp [processEntry, T, entryOk]
  by_cases h11 : name = T ("PRODID")
  · subst h11; simp [processEntry, T, entryOk]
  by_cases h12 : name = T ("REV")
  · subst h12; simp [processEntry, T, entryOk]
  by_cases h13 : name = T ("TZ")
  · subst h13; simp [processEntry, T, entryOk]
  by_cases h14 : name = T ("GEO")
  · subst h14
    rcases hsp : pySplit ';' e.value with _ | ⟨la, rest1⟩
    · simp [processEntry, T, entryOk, geoOk, hsp]
    rcases rest1 with _ | ⟨lo, rest2⟩
    · simp [processEntry, T, entryOk, geoOk, hsp]
    rcases rest2 with _ | ⟨x, rest3⟩
    · by_cases hv : validFloat la = true ∧ validFloat lo = true
      · simp [processEntry, T, entryOk, geoOk, hsp, hv]
        exact ⟨la, lo, ⟨rfl, rfl⟩, hv⟩
      · simp [processEntry, T, entryOk, geoOk, hsp, hv]
        intro hla
        cases hlo : validFloat lo
        · rfl
        · exact absurd ⟨hla, hlo⟩ hv
    · simp [processEntry, T, entryOk, geoOk, hsp]
  by_cases h15 : name = T ("GENDER")
  · subst h15; simp [processEntry, T, entryOk]
  by_cases h16 : name = T ("CATEGORIES")
  · subst h16; simp [processEntry, T, entryOk]
  by_cases h17 : name = T ("NOTE")
  · subst h17; simp [processEntry, T, entryOk]
  by_cases h18 : name = T ("BEGIN") ∨ name = T ("END") ∨ name = T ("VERSION")
  · simp [processEntry, h1, h2, h3, h4, h5, h6, h7, h8, h9, h10, h11, h12, h13,
      h14, h15, h16, h17, h18, entryOk]
  · simp [processEntry, h1, h2, h3, h4, h5, h6, h7, h8, h9, h10, h11, h12, h13,
      h14, h15, h16, h17, h18, entryOk]


theorem processEntry_err_kind {c : Contact} {name : Text} {e : Entry} {er : VErr}
    (h : processEntry c name e = .error er) : ∃ m, er = .valueErr m := by
  by_cases h1 : name = T ("EMAIL")
  · subst h1
    simp [processEntry, T] at h
  by_cases h2 : name = T ("TEL")
  · subst h2
    simp [processEntry, T] at h
  by_cases h3 : name = T ("ADR")
  · subst h3
    simp [processEntry, T] at h
  by_cases h4 : name = T ("PHOTO")
  · subst h4
    by_cases henc : (lookupParam (T ("ENCODING")) e.params).isSome = true
    · rw [show (T ("ENCODING") : Text) =
        ['E', 'N', 'C', 'O', 'D', 'I', 'N', 'G'] from by decide] at henc
      simp [processEntry, T, henc] at h
    · rw [show (T ("ENCODING") : Text) =
        ['E', 'N', 'C', 'O', 'D', 'I', 'N', 'G'] from by decide] at henc
      simp [processEntry, T, henc] at h
  by_cases h5 : name = T ("BDAY")
  · subst h5
    cases hd : dateFromIso e.value with
    | some d => simp [processEntry, T, hd] at h
    | none =>
      simp [processEntry, T, hd] at h
      first
      | exact ⟨_, h⟩
      | exact ⟨_, h.symm⟩
  by_cases h6 : name = T ("ANNIVERSARY")
  · subst h6
    cases hd : dateFromIso e.value with
    | some d => simp [processEntry, T, hd] at h
    | none =>
      simp [processEntry, T, hd] at h
      first
      | exact ⟨_, h⟩
      | exact ⟨_, h.symm⟩
  by_cases h7 : name = T ("URL")
  · subst h7
    simp [processEntry, T] at h
  by_cases h8 : name = T ("IMPP")
  · subst h8
    simp [processEntry, T] at h
  by_cases h9 : name = T ("NICKNAME")
  · subst h9
    simp [processEntry, T] at h
  by_cases h10 : name = T ("UID")
  · subst h10
    simp [processEntry, T] at h
  by_cases h11 : name = T ("PRODID")
  · subst h11
    simp [processEntry, T] at h
  by_cases h12 : name = T ("REV")
  · subst h12
    simp [processEntry, T] at h
  by_cases h13 : name = T ("TZ")
  · subst h13
    simp [processEntry, T] at h
  by_cases h14 : name = T ("GEO")
  · subst h14
    rcases hsp : pySplit ';' e.value with _ | ⟨la, _ | ⟨lo, _ | ⟨x, r⟩⟩⟩
    · simp [processEntry, T, hsp] at h
      first
      | exact ⟨_, h⟩
      | exact ⟨_, h.symm⟩
    · simp [processEntry, T, hsp] at h
      first
      | exact ⟨_, h⟩
      | exact ⟨_, h.symm⟩
    · by_cases hval : validFloat la = true ∧ validFloat lo = true
      · simp [processEntry, T, hsp, hval] at h
      · simp [processEntry, T, hsp, hval] at h
        first
        | exact ⟨_, h⟩
        | exact ⟨_, h.symm⟩
    · simp [processEntry, T, hsp] at h
      first
      | exact ⟨_, h⟩
      | exact ⟨_, h.symm⟩
  by_cases h15 : name = T ("GENDER")
  · subst h15
    simp [processEntry, T] at h
  by_cases h16 : name = T ("CATEGORIES")
  · subst h16
    simp [processEntry, T] at h
  by_cases h17 : name = T ("NOTE")
  · subst h17
    simp [processEntry, T] at h
  by_cases h18 : name = T ("BEGIN") ∨ name = T ("END") ∨ name = T ("VERSION")
  · rcases h18 with hb | hb | hb <;> (subst hb; simp [processEntry, T] at h)
  · simp [T] at h1 h2 h3 h4 h5 h6 h7 h8 h9 h10 h11 h12 h13 h14 h15 h16 h17 h18
    simp [processEntry, T, h1, h2, h3, h4, h5, h6, h7, h8, h9, h10, h11, h12, h13,
      h14, h15, h16, h17, h18] at h

theorem processEntry_photo_pres {c c2 : Contact} {name : Text} {e : Entry}
    (henc : lookupParam (T ("ENCODING")) e.params = none)
    (h : processEntry c name e = .ok c2) : c2.photo_data = c.photo_data := by
  have henc2 : (lookupParam (T ("ENCODING")) e.params).isSome = false := by
    rw [henc]; rfl
  by_cases h1 : name = T ("EMAIL")
  · subst h1
    simp [processEntry, T] at h
    subst h
    simp
  by_cases h2 : name = T ("TEL")
  · subst h2
    simp [processEntry, T] at h
    subst h
    simp
  by_cases h3 : name = T ("ADR")
  · subst h3
    simp [processEntry, T] at h
    subst h
    simp
  by_cases h4 : name = T ("PHOTO")
  · subst h4
    rw [show (T ("ENCODING") : Text) =
      ['E', 'N', 'C', 'O', 'D', 'I', 'N', 'G'] from by decide] at henc2
    simp [processEntry, T, henc2] at h
    subst h
    simp
  by_cases h5 : name = T ("BDAY")
  · subst h5
    cases hd : dateFromIso e.value with
    | some d =>
      simp [processEntry, T, hd] at h
      subst h
      simp
    | none => simp [processEntry, T, hd] at h
  by_cases h6 : name = T ("ANNIVERSARY")
  · subst h6
    cases hd : dateFromIso e.value with
    | some d =>
      simp [processEntry, T, hd] at h
      subst h
      simp
    | none => simp [processEntry, T, hd] at h
  by_cases h7 : name = T ("URL")
  · subst h7
    simp [processEntry, T] at h
    subst h
    simp
  by_cases h8 : name = T ("IMPP")
  · subst h8
    simp [processEntry, T] at h
    subst h
    simp
  by_cases h9 : name = T ("NICKNAME")
  · subst h9
    simp [processEntry, T] at h
    subst h
    simp
  by_cases h10 : name = T ("UID")
  · subst h10
    simp [processEntry, T] at h
    subst h
    simp
  by_cases h11 : name = T ("PRODID")
  · subst h11
    simp [processEntry, T] at h
    subst h
    simp
  by_cases h12 : name = T ("REV")
  · subst h12
    simp [processEntry, T] at h
    subst h
    simp
  by_cases h13 : name = T ("TZ")
  · subst h13
    simp [processEntry, T] at h
    subst h
    simp
  by_cases h14 : name = T ("GEO")
  · subst h14
    rcases hsp : pySplit ';' e.value with _ | ⟨la, _ | ⟨lo, _ | ⟨x, r⟩⟩⟩
    · simp [processEntry, T, hsp] at h
    · simp [processEntry, T, hsp] at h
    · by_cases hval : validFloat la = true ∧ validFloat lo = true
      · simp [processEntry, T, hsp, hval] at h
        subst h
        simp
      · simp [processEntry, T, hsp, hval] at h
    · simp [processEntry, T, hsp] at h
  by_cases h15 : name = T ("GENDER")
  · subst h15
    simp [processEntry, T] at h
    subst h
    simp
  by_cases h16 : name = T ("CATEGORIES")
  · subst h16
    simp [processEntry, T] at h
    subst h
    simp
  by_cases h17 : name = T ("NOTE")
  · subst h17
    simp [processEntry, T] at h
    subst h
    simp
  by_cases h18 : name = T ("BEGIN") ∨ name = T ("END") ∨ name = T ("VERSION")
  · rcases h18 with hb | hb | hb <;>
      (subst hb
       simp [processEntry, T] at h
       subst h
       simp)
  · simp [T] at h1 h2 h3 h4 h5 h6 h7 h8 h9 h10 h11 h12 h13 h14 h15 h16 h17 h18
    simp [processEntry, T, h1, h2, h3, h4, h5, h6, h7, h8, h9, h10, h11, h12, h13,
      h14, h15, h16, h17, h18] at h
    subst h
    simp

theorem processEntries_cons_err {c : Contact} {name : Text} {e : Entry} {er : VErr}
    (h : processEntry c name e = .error er) (rest : List Entry) :
    processEntries c name (e :: rest) = .error er := by
  rw [processEntries, h]

theorem processEntries_ok_iff (name : Text) :
    ∀ (es : List Entry) (c : Contact),
      (∃ c2, processEntries c name es = .ok c2) ↔ ∀ e ∈ es, entryOk name e := by
  intro es
  induction es with
  | nil => intro c; simp [processEntries]
  | cons e rest ih =>
    intro c
    cases hpe : processEntry c name e with
    | ok c3 =>
      have hek : entryOk name e := (processEntry_ok_iff c name e).1 ⟨c3, hpe⟩
      rw [processEntries_cons_ok hpe]
      simp [ih c3, hek]
    | error er =>
      have hek : ¬ entryOk name e := by
        intro hok
        obtain ⟨c2, heq⟩ := (processEntry_ok_iff c name e).2 hok
        rw [hpe] at heq
        cases heq
      rw [processEntries_cons_err hpe]
      simp [hek]

theorem processEntries_err_kind (name : Text) :
    ∀ (es : List Entry) (c : Contact) (er : VErr),
      processEntries c name es = .error er → ∃ m, er = .valueErr m := by
  intro es
  induction es with
  | nil => intro c er h; cases h
  | cons e rest ih =>
    intro c er h
    cases hpe : processEntry c name e with
    | ok c3 =>
      rw [processEntries_cons_ok hpe] at h
      exact ih c3 er h
    | error er2 =>
      rw [processEntries_cons_err hpe] at h
      cases h
      exact processEntry_err_kind hpe

theorem processEntries_photo_pres (name : Text) :
    ∀ (es : List Entry) (c c2 : Contact),
      (∀ e ∈ es, lookupParam (T ("ENCODING")) e.params = none) →
      processEntries c name es = .ok c2 → c2.photo_data = c.photo_data := by
  intro es
  induction es with
  | nil =>
    intro c c2 _ h
    cases h
    rfl
  | cons e rest ih =>
    intro c c2 henc h
    cases hpe : processEntry c name e with
    | ok c3 =>
      rw [processEntries_cons_ok hpe] at h
      rw [ih c3 c2 (fun x hx => henc x (by simp [hx])) h,
          processEntry_photo_pres (henc e (by simp)) hpe]
    | error er =>
      rw [processEntries_cons_err hpe] at h
      cases h

theorem populateAll_cons_err {c : Contact} {name : Text} {es : List Entry} {er : VErr}
    (h : processEntries c name es = .error er) (rest : List (Text × List Entry)) :
    populateAll c ((name, es) :: rest) = .error er := by
  rw [populateAll, h]

theorem populateAll_ok_iff :
    ∀ (items : List (Text × List Entry)) (c : Contact),
      (∃ d, populateAll c items = .ok d) ↔
        ∀ p ∈ items, ∀ e ∈ p.2, entryOk p.1 e := by
  intro items
  induction items with
  | nil => intro c; simp [populateAll]
  | cons p rest ih =>
    obtain ⟨name, es⟩ := p
    intro c
    cases hes : processEntries c name es with
    | ok c3 =>
      have hek : ∀ e ∈ es, entryOk name e :=
        (processEntries_ok_iff name es c).1 ⟨c3, hes⟩
      rw [populateAll_cons_ok hes]
      simp only [List.mem_cons, forall_eq_or_imp]
      rw [ih c3]
      constructor
      · intro hr
        exact ⟨hek, hr⟩
      · intro hr
        exact hr.2
    | error er =>
      have hek : ¬ ∀ e ∈ es, entryOk name e := by
        intro hok
        obtain ⟨c2, heq⟩ := (processEntries_ok_iff name es c).2 hok
        rw [hes] at heq
        cases heq
      rw [populateAll_cons_err hes]
      simp only [List.mem_cons, forall_eq_or_imp]
      constructor
      · rintro ⟨d, hd⟩; cases hd
      · rintro ⟨hbad, -⟩; exact absurd hbad hek

theorem populateAll_err_kind :
    ∀ (items : List (Text × List Entry)) (c : Contact) (er : VErr),
      populateAll c items = .error er → ∃ m, er = .valueErr m := by
  intro items
  induction items with
  | nil => intro c er h; cases h
  | cons p rest ih =>
    obtain ⟨name, es⟩ := p
    intro c er h
    cases hes : processEntries c name es with
    | ok c3 =>
      rw [populateAll_cons_ok hes] at h
      exact ih c3 er h
    | error er2 =>
      rw [populateAll_cons_err hes] at h
      cases h
      exact processEntries_err_kind name es c _ hes

theorem populateAll_photo_pres :
    ∀ (items : List (Text × List Entry)) (c d : Contact),
      (∀ p ∈ items, ∀ e ∈ p.2, lookupParam (T ("ENCODING")) e.params = none) →
      populateAll c items = .ok d → d.photo_data = c.photo_data := by
  intro items
  induction items with
  | nil =>
    intro c d _ h
    cases h
    rfl
  | cons p rest ih =>
    obtain ⟨name, es⟩ := p
    intro c d henc h
    cases hes : processEntries c name es with
    | ok c3 =>
      rw [populateAll_cons_ok hes] at h
      rw [ih c3 d (fun x hx => henc x (by simp [hx])) h,
          processEntries_photo_pres name es c c3 (henc (name, es) (by simp)) hes]
    | error er =>
      rw [populateAll_cons_err hes] at h
      cases h

theorem lowerChar_ne_E (ch : Char) : lowerChar ch ≠ 'E' := by
  intro h
  unfold lowerChar at h
  split at h
  · next hr =>
    obtain ⟨hr1, hr2⟩ := hr
    have hv1 : ('A' : Char).toNat ≤ ch.toNat := hr1
    have hv2 : ch.toNat ≤ ('Z' : Char).toNat := hr2
    have hA : ('A' : Char).toNat = 65 := by decide
    have hZ : ('Z' : Char).toNat = 90 := by decide
    have hvalid : (ch.toNat + 32).isValidChar := by
      left
      omega
    have h3 : (Char.ofNat (ch.toNat + 32)).toNat = ch.toNat + 32 := by
      rw [Char.ofNat, dif_pos hvalid]
      rfl
    have h2 := congrArg Char.toNat h
    rw [h3] at h2
    have hE : ('E' : Char).toNat = 69 := by decide
    omega
  · next hr =>
    apply hr
    subst h
    constructor <;> decide

theorem pyLower_ne_ENCODING (o : Text) : pyLower o ≠ T ("ENCODING") := by
  intro h
  rw [show (T ("ENCODING") : Text) =
    'E' :: ['N', 'C', 'O', 'D', 'I', 'N', 'G'] from by decide] at h
  cases o with
  | nil => cases h
  | cons ch t =>
    rw [pyLower, List.map_cons] at h
    exact lowerChar_ne_E ch (List.cons.injEq _ _ _ _ ▸ h |>.1)

theorem lookupParam_lowered_none {ps : List (Text × List Text)}
    (h : ∀ kv ∈ ps, ∃ o, kv.1 = pyLower o) :
    lookupParam (T ("ENCODING")) ps = none := by
  induction ps with
  | nil => rfl
  | cons kv rest ih =>
    obtain ⟨k, v⟩ := kv
    obtain ⟨o, ho⟩ := h (k, v) (by simp)
    rw [lookupParam]
    rw [if_neg (by simp at ho; rw [ho]; exact pyLower_ne_ENCODING o)]
    exact ih (fun x hx => h x (by simp [hx]))

theorem parseParams_lowered (parts : List Text) :
    ∀ kv ∈ parseParams parts, ∃ o, kv.1 = pyLower o := by
  rw [parseParams]
  have hgen : ∀ (acc : List (Text × List Text)),
      (∀ kv ∈ acc, ∃ o, kv.1 = pyLower o) →
      ∀ kv ∈ parts.foldl
        (fun acc p =>
          match splitFirst '=' p with
          | some (k, v) => (pyLower k, pySplit ',' v) :: acc
          | none => acc) acc, ∃ o, kv.1 = pyLower o := by
    induction parts with
    | nil => intro acc hacc kv hkv; exact hacc kv hkv
    | cons p rest ih =>
      intro acc hacc kv hkv
      simp only [List.foldl_cons] at hkv
      cases hsp : splitFirst '=' p with
      | none =>
        rw [hsp] at hkv
        exact ih acc hacc kv hkv
      | some kvp =>
        obtain ⟨k, v⟩ := kvp
        rw [hsp] at hkv
        refine ih _ ?_ kv hkv
        intro x hx
        rcases List.mem_cons.1 hx with rfl | hx2
        · exact ⟨k, rfl⟩
        · exact hacc x hx2
  exact hgen [] (by simp)

theorem parseLine_lowered {line name : Text} {e : Entry}
    (h : parseLine line = some (name, e)) :
    ∀ kv ∈ e.params, ∃ o, kv.1 = pyLower o := by
  rw [parseLine] at h
  cases hsf : splitFirst ':' line with
  | none => rw [hsf] at h; cases h
  | some kv2 =>
    obtain ⟨keyPart, value⟩ := kv2
    rw [hsf] at h
    simp only [Option.some.injEq, Prod.mk.injEq] at h
    obtain ⟨-, he⟩ := h
    rw [← he]
    exact parseParams_lowered _

theorem pmAdd_entries {pm : List (Text × List Entry)} {name : Text} {e : Entry}
    {p : Text × List Entry} (hp : p ∈ pmAdd pm name e) :
    ∀ e2 ∈ p.2, (∃ q ∈ pm, e2 ∈ q.2) ∨ e2 = e := by
  induction pm generalizing p with
  | nil =>
    simp [pmAdd] at hp
    subst hp
    intro e2 he2
    simp at he2
    exact Or.inr he2
  | cons kv rest ih =>
    obtain ⟨k, es⟩ := kv
    rw [pmAdd.eq_def] at hp
    simp only at hp
    by_cases hk : k = name
    · rw [if_pos hk] at hp
      rcases List.mem_cons.1 hp with rfl | hp2
      · intro e2 he2
        rcases List.mem_append.1 he2 with h1 | h2
        · exact Or.inl ⟨(k, es), by simp, h1⟩
        · simp at h2
          exact Or.inr h2
      · intro e2 he2
        exact Or.inl ⟨p, by simp [hp2], he2⟩
    · rw [if_neg hk] at hp
      rcases List.mem_cons.1 hp with rfl | hp2
      · intro e2 he2
        exact Or.inl ⟨(k, es), by simp, he2⟩
      · intro e2 he2
        rcases ih hp2 e2 he2 with ⟨q, hq, hq2⟩ | heq
        · exact Or.inl ⟨q, by simp [hq], hq2⟩
        · exact Or.inr heq

theorem buildPM_lowered (lines : List Text) :
    ∀ p ∈ buildPM lines, ∀ e ∈ p.2, ∀ kv ∈ e.params, ∃ o, kv.1 = pyLower o := by
  rw [buildPM]
  have hgen : ∀ (pm0 : List (Text × List Entry)),
      (∀ p ∈ pm0, ∀ e ∈ p.2, ∀ kv ∈ e.params, ∃ o, kv.1 = pyLower o) →
      ∀ p ∈ lines.foldl pmStep pm0, ∀ e ∈ p.2, ∀ kv ∈ e.params,
        ∃ o, kv.1 = pyLower o := by
    induction lines with
    | nil => intro pm0 h0 p hp; exact h0 p hp
    | cons line rest ih =>
      intro pm0 h0 p hp
      simp only [List.foldl_cons] at hp
      refine ih _ ?_ p hp
      intro q hq e he
      rw [pmStep.eq_def] at hq
      cases hpl : parseLine line with
      | none =>
        rw [hpl] at hq
        exact h0 q hq e he
      | some ne =>
        obtain ⟨nm, e2⟩ := ne
        rw [hpl] at hq
        simp only at hq
        rcases pmAdd_entries hq e he with ⟨q2, hq2, he2⟩ | rfl
        · exact h0 q2 hq2 e he2
        · exact parseLine_lowered hpl
  exact hgen [] (by simp)

theorem buildPM_enc (lines : List Text) :
    ∀ p ∈ buildPM lines, ∀ e ∈ p.2,
      lookupParam (T ("ENCODING")) e.params = none := by
  intro p hp e he
  exact lookupParam_lowered_none (buildPM_lowered lines p hp e he)

theorem from_vcard_photo_none (text : Text) (d : Contact)
    (h : Contact.from_vcard text = .ok d) : d.photo_data = none := by
  simp only [Contact.from_vcard] at h
  cases hfn : pmLookup (T ("FN")) (buildPM (unfold_lines (splitlines text))) with
  | none =>
    simp only [hfn] at h
    cases h
  | some fnEs =>
    simp only [hfn] at h
    cases hn : pmLookup (T ("N")) (buildPM (unfold_lines (splitlines text))) with
    | none =>
      simp only [hn] at h
      have hpd := populateAll_photo_pres _ _ _
        (fun p hp e he => buildPM_enc _ p hp e he) h
      rw [hpd]
    | some nEs =>
      simp only [hn] at h
      have hpd := populateAll_photo_pres _ _ _
        (fun p hp e he => buildPM_enc _ p hp e he) h
      rw [hpd]

theorem from_vcard_facts (text : Text) :
    ((∃ d, Contact.from_vcard text = .ok d) ↔
      ((pmLookup (T ("FN")) (pmOf text)).isSome = true ∧
        ∀ p ∈ pmOf text, ∀ e ∈ p.2, entryOk p.1 e))
    ∧ (pmLookup (T ("FN")) (pmOf text) = none →
        Contact.from_vcard text = .error (.validation (T ("FN is required"))))
    ∧ (∀ er, Contact.from_vcard text = .error er →
        (pmLookup (T ("FN")) (pmOf text)).isSome = true →
        ∃ m, er = .valueErr m) := by
  have hpm : buildPM (unfold_lines (splitlines text)) = pmOf text := rfl
  cases hfn : pmLookup (T ("FN")) (pmOf text) with
  | none =>
    have hcomp : Contact.from_vcard text = .error (.validation (T ("FN is required"))) := by
      simp only [Contact.from_vcard, hpm, hfn]
    refine ⟨?_, fun _ => hcomp, ?_⟩
    · constructor
      · rintro ⟨d, hd⟩
        rw [hcomp] at hd
        cases hd
      · rintro ⟨hsome, -⟩
        simp at hsome
    · intro er her hsome
      simp at hsome
  | some fnEs =>
    have hcomp : Contact.from_vcard text =
        populateAll
          (match pmLookup (T ("N")) (pmOf text) with
           | some nEs =>
             { fn := ((fnEs.headD emptyEntry).value : Text),
               n := some (pySplit ';' (nEs.headD emptyEntry).value) }
           | none => { fn := (fnEs.headD emptyEntry).value })
          (pmOf text) := by
      simp only [Contact.from_vcard, hpm, hfn]
    refine ⟨?_, ?_, ?_⟩
    · rw [hcomp, populateAll_ok_iff]
      simp [hfn]
    · intro hnone
      simp at hnone
    · intro er her _
      rw [hcomp] at her
      exact populateAll_err_kind _ _ _ her

/-- The loop of `unfold_lines` always returns its first logical line as
    the accumulator it started from, possibly extended by continuation
    tails. -/
theorem collectCont_shape : ∀ (rest : List Text) (cur : Text),
    ∃ t res, collectCont cur rest = (cur ++ t) :: res := by
  intro rest
  induction rest with
  | nil =>
    intro cur
    exact ⟨[], [], by rw [collectCont]; simp⟩
  | cons l rest2 ih =>
    intro cur
    by_cases hc : contHead l
    · obtain ⟨t, res, heq⟩ := ih (cur ++ l.tail)
      refine ⟨l.tail ++ t, res, ?_⟩
      rw [collectCont, if_pos hc, heq]
      simp
    · exact ⟨[], collectCont l rest2, by rw [collectCont, if_neg hc]; simp⟩

/-- Decoding a vCard whose single ADR line joins the given plain
    components: the decoded `adr` value is exactly those components,
    with no padding to seven elements. -/
theorem adr_decode (vs : List Text) (hne : vs ≠ []) (hp : ∀ p ∈ vs, PlainText p) :
    Contact.from_vcard (mkVCard [T ("BEGIN:VCARD"), T ("VERSION:4.0"), T ("FN:A"),
        T ("ADR:") ++ pyJoin (T (";")) vs, T ("END:VCARD")]) =
      .ok { fn := T ("A"), adr := [⟨some vs, some []⟩],
            custom := [(T ("FN"), CustomVal.list [T ("A")])] } := by
  have hsemi : (T (";") : Text) = [';'] := by decide
  have hjoinchar : ∀ ch ∈ pyJoin (T (";")) vs, ch = ';' ∨ PlainChar ch := by
    intro ch hch
    rcases pyJoin_chars hch with hs | ⟨p, hpmem, hc⟩
    · left
      rw [hsemi] at hs
      simpa using hs
    · exact Or.inr (hp p hpmem ch hc)
  have hbs : '\\' ∉ pyJoin (T (";")) vs := by
    intro hmem
    rcases hjoinchar _ hmem with h | hpc
    · exact absurd h (by decide)
    · exact hpc.1 rfl
  have hsplit : pySplit ';' (pyJoin (T (";")) vs) = vs := by
    rw [hsemi]
    exact pySplit_join vs hne (fun p hp2 hmem => (hp p hp2 ';' hmem).2.1 rfl)
  have hclean : ∀ l ∈ [T ("BEGIN:VCARD"), T ("VERSION:4.0"), T ("FN:A"),
      T ("ADR:") ++ pyJoin (T (";")) vs, T ("END:VCARD")],
      ∀ ch ∈ l, ¬ ch = '\r' ∧ isLB ch = false := by
    intro l hl
    simp only [List.mem_cons, List.not_mem_nil, or_false] at hl
    rcases hl with rfl | rfl | rfl | rfl | rfl
    · decide
    · decide
    · decide
    · intro ch hch
      rcases List.mem_append.1 hch with h4 | hjn
      · have hA : ∀ ch ∈ (T ("ADR:") : Text), ¬ ch = '\r' ∧ isLB ch = false := by decide
        exact hA ch h4
      · rcases hjoinchar ch hjn with rfl | hpc
        · decide
        · exact hpc.clean
    · decide
  have hnc2 : ¬ contHead (T ("VERSION:4.0")) := by decide
  have hnc3 : ¬ contHead (T ("FN:A")) := by decide
  have hnc4 : ¬ contHead (T ("ADR:") ++ pyJoin (T (";")) vs) := by
    rw [show (T ("ADR:") : Text) = 'A' :: T ("DR:") from by decide]
    intro hcontra
    simp only [contHead, List.cons_append, List.headD_cons] at hcontra
    rcases hcontra with h | h <;> exact absurd h (by decide)
  have hnc5 : ¬ contHead (T ("END:VCARD")) := by decide
  have hu : unfold_lines [T ("BEGIN:VCARD"), T ("VERSION:4.0"), T ("FN:A"),
      T ("ADR:") ++ pyJoin (T (";")) vs, T ("END:VCARD")] =
      [T ("BEGIN:VCARD"), T ("VERSION:4.0"), T ("FN:A"),
       T ("ADR:") ++ pyJoin (T (";")) vs, T ("END:VCARD")] := by
    rw [unfold_lines, collectCont_cons_new hnc2, collectCont_cons_new hnc3,
        collectCont_cons_new hnc4, collectCont_cons_new hnc5, collectCont]
  have hparse4 : parseLine (T ("ADR:") ++ pyJoin (T (";")) vs) =
      some (T ("ADR"), ⟨[], pyJoin (T (";")) vs⟩) := by
    have heq : T ("ADR:") ++ pyJoin (T (";")) vs =
        T ("ADR") ++ (':' :: pyJoin (T (";")) vs) := by
      rw [show (T ("ADR:") : Text) = T ("ADR") ++ [':'] from by decide]
      simp
    rw [heq]
    exact parseLine_scalar (T ("ADR")) (pyJoin (T (";")) vs) (by decide) (by decide) hbs
  have hpm : buildPM [T ("BEGIN:VCARD"), T ("VERSION:4.0"), T ("FN:A"),
      T ("ADR:") ++ pyJoin (T (";")) vs, T ("END:VCARD")] =
      [(T ("BEGIN"), [⟨[], T ("VCARD")⟩]), (T ("VERSION"), [⟨[], T ("4.0")⟩]),
       (T ("FN"), [⟨[], T ("A")⟩]), (T ("ADR"), [⟨[], pyJoin (T (";")) vs⟩]),
       (T ("END"), [⟨[], T ("VCARD")⟩])] := by
    have h3 : List.foldl pmStep ([] : List (Text × List Entry))
        [T ("BEGIN:VCARD"), T ("VERSION:4.0"), T ("FN:A")] =
        [(T ("BEGIN"), [⟨[], T ("VCARD")⟩]), (T ("VERSION"), [⟨[], T ("4.0")⟩]),
         (T ("FN"), [⟨[], T ("A")⟩])] := by decide
    rw [buildPM, show ([T ("BEGIN:VCARD"), T ("VERSION:4.0"), T ("FN:A"),
        T ("ADR:") ++ pyJoin (T (";")) vs, T ("END:VCARD")] : List Text) =
        [T ("BEGIN:VCARD"), T ("VERSION:4.0"), T ("FN:A")] ++
        [T ("ADR:") ++ pyJoin (T (";")) vs, T ("END:VCARD")] from rfl,
      List.foldl_append, h3]
    simp only [List.foldl_cons, List.foldl_nil]
    have hnm5 : ∀ kv ∈ (([(T ("BEGIN"), [⟨[], T ("VCARD")⟩]),
        (T ("VERSION"), [⟨[], T ("4.0")⟩]), (T ("FN"), [⟨[], T ("A")⟩])] :
          List (Text × List Entry)) ++
        [(T ("ADR"), [(⟨[], pyJoin (T (";")) vs⟩ : Entry)])]), kv.1 ≠ T ("END") := by
      intro kv hkv
      rcases List.mem_append.1 hkv with h | h
      · have hh : ∀ kv ∈ ([(T ("BEGIN"), [⟨[], T ("VCARD")⟩]),
          (T ("VERSION"), [⟨[], T ("4.0")⟩]), (T ("FN"), [⟨[], T ("A")⟩])] :
            List (Text × List Entry)), kv.1 ≠ T ("END") := by decide
        exact hh kv h
      · simp only [List.mem_singleton] at h
        rw [h]
        exact (by decide : (T ("ADR") : Text) ≠ T ("END"))
    have h4 : pmStep [(T ("BEGIN"), [⟨[], T ("VCARD")⟩]),
        (T ("VERSION"), [⟨[], T ("4.0")⟩]), (T ("FN"), [⟨[], T ("A")⟩])]
        (T ("ADR:") ++ pyJoin (T (";")) vs) =
        [(T ("BEGIN"), [⟨[], T ("VCARD")⟩]), (T ("VERSION"), [⟨[], T ("4.0")⟩]),
         (T ("FN"), [⟨[], T ("A")⟩])] ++
        [(T ("ADR"), [(⟨[], pyJoin (T (";")) vs⟩ : Entry)])] := by
      rw [pmStep, hparse4]
      exact pmAdd_notMem (by decide) _
    rw [h4]
    have h5 : pmStep ([(T ("BEGIN"), [⟨[], T ("VCARD")⟩]),
        (T ("VERSION"), [⟨[], T ("4.0")⟩]), (T ("FN"), [⟨[], T ("A")⟩])] ++
        [(T ("ADR"), [(⟨[], pyJoin (T (";")) vs⟩ : Entry)])]) (T ("END:VCARD")) =
        [(T ("BEGIN"), [⟨[], T ("VCARD")⟩]), (T ("VERSION"), [⟨[], T ("4.0")⟩]),
         (T ("FN"), [⟨[], T ("A")⟩]), (T ("ADR"), [⟨[], pyJoin (T (";")) vs⟩]),
         (T ("END"), [⟨[], T ("VCARD")⟩])] := by
      rw [pmStep,
        show parseLine (T ("END:VCARD")) = some (T ("END"), ⟨[], T ("VCARD")⟩) from by decide]
      exact (pmAdd_notMem hnm5 (⟨[], T ("VCARD")⟩ : Entry)).trans (by simp)
    rw [h5]
  rw [Contact.from_vcard]
  rw [splitlines_mkVCard _ hclean, hu, hpm]
  have hFN : pmLookup (T ("FN"))
      [(T ("BEGIN"), [⟨[], T ("VCARD")⟩]), (T ("VERSION"), [⟨[], T ("4.0")⟩]),
       (T ("FN"), [(⟨[], T ("A")⟩ : Entry)]), (T ("ADR"), [⟨[], pyJoin (T (";")) vs⟩]),
       (T ("END"), [⟨[], T ("VCARD")⟩])] = some [⟨[], T ("A")⟩] := by
    simp [pmLookup, T]
  have hN2 : pmLookup (T ("N"))
      [(T ("BEGIN"), [⟨[], T ("VCARD")⟩]), (T ("VERSION"), [⟨[], T ("4.0")⟩]),
       (T ("FN"), [(⟨[], T ("A")⟩ : Entry)]), (T ("ADR"), [⟨[], pyJoin (T (";")) vs⟩]),
       (T ("END"), [⟨[], T ("VCARD")⟩])] = none := by
    simp [pmLookup, T]
  simp only [hFN, hN2, List.headD_cons]
  rw [populateAll_cons_ok (processEntries_skip processEntry_begin _ _)]
  rw [populateAll_cons_ok (processEntries_skip processEntry_version _ _)]
  have hfnpe : ∀ cx : Contact, processEntries cx (T ("FN")) [⟨[], T ("A")⟩] =
      .ok { cx with custom := customAdd cx.custom (T ("FN")) (T ("A")) } := by
    intro cx
    rw [processEntries_cons_ok (processEntry_fn cx ⟨[], T ("A")⟩)]
    rfl
  rw [populateAll_cons_ok (hfnpe _)]
  have hadrpe : ∀ cx : Contact,
      processEntries cx (T ("ADR")) [⟨[], pyJoin (T (";")) vs⟩] =
        .ok { cx with adr := cx.adr ++ [⟨some vs, some []⟩] } := by
    intro cx
    rw [processEntries_cons_ok (processEntry_adr cx ⟨[], pyJoin (T (";")) vs⟩)]
    rw [processEntries, hsplit]
    rfl
  rw [populateAll_cons_ok (hadrpe _)]
  rw [populateAll_cons_ok (processEntries_skip processEntry_end _ _)]
  rw [populateAll]
  simp [customAdd]

/-- Encoding a Contact whose single address holds the given plain
    components: the ADR line joins exactly those components, with no
    padding to seven. -/
theorem adr_encode (vs : List Text) (hp : ∀ p ∈ vs, PlainText p) :
    fieldLines { fn := T ("A"), adr := [⟨some vs, none⟩] } =
      [T ("FN:A"), T ("ADR:") ++ pyJoin (T (";")) vs] := by
  have hmap : vs.map escape_text = vs := by
    calc vs.map escape_text = vs.map id :=
          List.map_congr_left (fun p hp2 => escape_plainText (hp p hp2))
      _ = vs := List.map_id vs
  have hfn : escape_text ['A'] = ['A'] := by decide
  simp [fieldLines, typeParam, hmap, hfn, T]

/-- Claim C1. The spec's unconditional inverse law
    `unescape_text (escape_text s) = s` fails: on the two-character
    input backslash-`n`, escaping yields backslash-backslash-`n`, and
    the sequential replacement passes of `unescape_text` then rewrite
    the second half of the escaped backslash together with the
    following `n` into a newline, returning backslash-newline instead
    of the original text. -/
theorem C1_escape_unescape_bug :
    unescape_text (escape_text (T ("\\n"))) = T ("\\\n") ∧
    unescape_text (escape_text (T ("\\n"))) ≠ T ("\\n") := by decide

/-- Claim C2, counterexample. The decode side of the round trip drops
    populated social profiles into the custom bucket: a Contact with one
    social profile decodes to a Contact whose `social_profiles` list is
    empty, so the round trip does not reproduce every populated field. -/
theorem C2_roundtrip_counterexample :
    (Contact.from_vcard (Contact.to_vcard
        { fn := T ("X"), social_profiles := [⟨T ("v"), none⟩] }).2).toOption.map
      Contact.social_profiles = some [] ∧
    ({ fn := T ("X"), social_profiles := [⟨T ("v"), none⟩] } : Contact).social_profiles
      ≠ [] := by decide

/-- Claim C2, amended. For a Contact with a plain nonempty formatted
    name, well-formed email/tel entries, plain urls, and every other
    optional field empty, the round trip reproduces `fn`, `email`,
    `tel` and `url` exactly; the decoded Contact additionally carries
    the FN value in its custom bucket, because the population loop has
    no FN case. -/
theorem C2_roundtrip_amended (c : Contact) (h : GoodContact c) :
    Contact.from_vcard (Contact.to_vcard c).2 =
      .ok { fn := c.fn, email := c.email, tel := c.tel, url := c.url,
            custom := [(T ("FN"), CustomVal.list [c.fn])] } :=
  roundtrip_good c h

/-- Claim C2, witness: the amended round trip at a concrete Contact
    with one email, one tel and one url. -/
theorem C2_roundtrip_witness :
    Contact.from_vcard (Contact.to_vcard
        { fn := T ("Jane"), email := [⟨T ("jane@example.com"), some [T ("work")]⟩],
          tel := [⟨T ("+123456789"), some [T ("cell")]⟩],
          url := [T ("https://jane.dev")] }).2 =
      .ok { fn := T ("Jane"), email := [⟨T ("jane@example.com"), some [T ("work")]⟩],
            tel := [⟨T ("+123456789"), some [T ("cell")]⟩],
            url := [T ("https://jane.dev")],
            custom := [(T ("FN"), CustomVal.list [T ("Jane")])] } :=
  C2_roundtrip_amended _ (by decide)

/-- Claim C3. `to_vcard` never validates the formatted name: on a
    Contact whose `fn` is the empty string it raises nothing and
    returns a complete vCard with an empty FN line, contradicting both
    the spec and the repository's own test, which expect a
    ValidationError and no output. -/
theorem C3_empty_fn_serializes :
    Contact.to_vcard { fn := [] } =
      ({ fn := [] },
       T ("BEGIN:VCARD\r\nVERSION:4.0\r\nFN:\r\nEND:VCARD\r\n")) := by decide

/-- Claim C4, amended. `from_vcard` succeeds exactly when an FN
    property is present and every accumulated entry passes the
    population loop (dates parse, GEO splits into two floats); a
    missing FN raises the serialization-side ValidationError — not a
    distinct decode error kind — and every other failure is a builtin
    ValueError. No partial Contact is returned in either case. -/
theorem C4_decode_error_amended (text : Text) :
    ((∃ d, Contact.from_vcard text = .ok d) ↔
      ((pmLookup (T ("FN")) (pmOf text)).isSome = true ∧
        ∀ p ∈ pmOf text, ∀ e ∈ p.2, entryOk p.1 e))
    ∧ (pmLookup (T ("FN")) (pmOf text) = none →
        Contact.from_vcard text = .error (.validation (T ("FN is required"))))
    ∧ (∀ er, Contact.from_vcard text = .error er →
        (pmLookup (T ("FN")) (pmOf text)).isSome = true →
        ∃ m, er = .valueErr m) :=
  from_vcard_facts text

/-- Claim C4, counterexample. Decoding a vCard without an FN line fails
    with the very ValidationError kind the claim reserves for the
    serialization side, not a distinct DecodeError/ParseError. -/
theorem C4_decode_error_counterexample :
    Contact.from_vcard (T ("BEGIN:VCARD\r\nVERSION:4.0\r\nEND:VCARD\r\n")) =
      .error (.validation (T ("FN is required"))) :=
  (from_vcard_facts (T ("BEGIN:VCARD\r\nVERSION:4.0\r\nEND:VCARD\r\n"))).2.1 (by decide)

/-- Claim C5, amended. A successful decode never stores a PHOTO value:
    parameter keys are lower-cased while the PHOTO branch looks up the
    uppercase key `ENCODING`, so the guard is dead and `photo_data` is
    `none` in every decoded Contact. -/
theorem C5_photo_amended (text : Text) (d : Contact)
    (h : Contact.from_vcard text = .ok d) : d.photo_data = none :=
  from_vcard_photo_none text d h

/-- Claim C5, witness: the amended theorem at a concrete vCard whose
    PHOTO line carries `ENCODING=b`. -/
theorem C5_photo_witness :
    ({ fn := T ("A"), custom := [(T ("FN"), CustomVal.list [T ("A")]),
        (T ("PHOTO"), CustomVal.list [T ("xyz")])] } : Contact).photo_data = none :=
  C5_photo_amended
    (T ("BEGIN:VCARD\r\nVERSION:4.0\r\nFN:A\r\nPHOTO;ENCODING=b:xyz\r\nEND:VCARD\r\n"))
    { fn := T ("A"), custom := [(T ("FN"), CustomVal.list [T ("A")]),
        (T ("PHOTO"), CustomVal.list [T ("xyz")])] }
    (by decide)

/-- Claim C5, counterexample. A PHOTO line carrying an ENCODING
    parameter is not accepted into `photo_data`; it is routed to the
    custom-properties bucket, refuting both halves of the claim. -/
theorem C5_photo_counterexample :
    (Contact.from_vcard
        (T ("BEGIN:VCARD\r\nVERSION:4.0\r\nFN:B\r\nPHOTO;ENCODING=b:data123\r\nEND:VCARD\r\n"))).toOption.map
      (fun d => (d.photo_data, d.custom)) =
      some (none, [(T ("FN"), CustomVal.list [T ("B")]),
                   (T ("PHOTO"), CustomVal.list [T ("data123")])]) := by decide

/-- Claim C6, amended. Address values are not normalized to seven
    components in either direction: decoding an ADR line joining any
    nonempty list of plain components yields exactly that list,
    unpadded, and encoding a Contact whose address value is any plain
    component list emits exactly those components. -/
theorem C6_adr_amended :
    (∀ vs : List Text, vs ≠ [] → (∀ p ∈ vs, PlainText p) →
      Contact.from_vcard (mkVCard [T ("BEGIN:VCARD"), T ("VERSION:4.0"), T ("FN:A"),
          T ("ADR:") ++ pyJoin (T (";")) vs, T ("END:VCARD")]) =
        .ok { fn := T ("A"), adr := [⟨some vs, some []⟩],
              custom := [(T ("FN"), CustomVal.list [T ("A")])] }) ∧
    (∀ vs : List Text, (∀ p ∈ vs, PlainText p) →
      fieldLines { fn := T ("A"), adr := [⟨some vs, none⟩] } =
        [T ("FN:A"), T ("ADR:") ++ pyJoin (T (";")) vs]) :=
  ⟨adr_decode, adr_encode⟩

/-- Claim C6, counterexample. A two-component ADR value decodes to a
    two-element list (not padded to seven), and a two-component address
    serializes as two components (not seven). -/
theorem C6_adr_counterexample :
    (Contact.from_vcard
        (T ("BEGIN:VCARD\r\nVERSION:4.0\r\nFN:A\r\nADR:street;city\r\nEND:VCARD\r\n"))).toOption.map
      (fun d => d.adr) = some [⟨some [T ("street"), T ("city")], some []⟩] ∧
    ([T ("street"), T ("city")] : List Text).length ≠ 7 ∧
    fieldLines { fn := T ("A"), adr := [⟨some [T ("street"), T ("city")], none⟩] } =
      [T ("FN:A"), T ("ADR:street;city")] := by decide

/-- Claim C7, counterexample. At limit 1 the folding loop never
    terminates on a two-character line: each iteration prepends a space
    to the remainder, which never gets shorter than the limit. `none`
    models the divergence. -/
theorem C7_fold_counterexample : fold_line (T ("ab")) 1 = none := by decide

/-- Claim C7, amended. For every limit of at least 2, `fold_line`
    terminates and produces at least one segment, every segment has
    length at most the limit, and unfolding returns exactly the
    original line. -/
theorem C7_fold_amended (line : Text) (limit : Nat) (h : 2 ≤ limit) :
    ∃ segs, fold_line line limit = some segs ∧ segs ≠ [] ∧
      (∀ s ∈ segs, s.length ≤ limit) ∧ unfold_lines segs = [line] :=
  unfold_foldFuel h line

/-- Claim C7, witness: the amended theorem at the line `abcde` and
    limit 2. -/
theorem C7_fold_witness :
    ∃ segs, fold_line (T ("abcde")) 2 = some segs ∧ segs ≠ [] ∧
      (∀ s ∈ segs, s.length ≤ 2) ∧ unfold_lines segs = [T ("abcde")] :=
  C7_fold_amended (T ("abcde")) 2 (by decide)

/-- Claim C8, counterexample. An orphaned continuation line is not
    ignored: alone in the input, it is returned unchanged as a logical
    line, still carrying its leading space. -/
theorem C8_orphan_counterexample :
    unfold_lines [T (" a")] = [T (" a")] ∧ contHead (T (" a")) := by decide

/-- Claim C8, amended. `unfold_lines` never raises, and a leading
    continuation line is kept, not dropped: it becomes the head logical
    line (extended by any directly following continuations) and still
    starts with its space or tab marker. -/
theorem C8_orphan_amended (l : Text) (rest : List Text) (h : contHead l) :
    ∃ t res, unfold_lines (l :: rest) = (l ++ t) :: res ∧ contHead (l ++ t) := by
  obtain ⟨t, res, heq⟩ := collectCont_shape rest l
  refine ⟨t, res, ?_, ?_⟩
  · rw [unfold_lines, heq]
  · cases l with
    | nil => exact absurd h (by decide)
    | cons c cs =>
      simp only [contHead, List.cons_append, List.headD_cons] at h ⊢
      exact h

/-- Claim C8, witness: the amended theorem on an orphaned continuation
    followed by a second continuation line. -/
theorem C8_orphan_witness :
    contHead (T (" x")) ∧
    ∃ t res, unfold_lines [T (" x"), T (" y")] = (T (" x") ++ t) :: res ∧
      contHead (T (" x") ++ t) :=
  ⟨by decide, C8_orphan_amended (T (" x")) [T (" y")] (by decide)⟩

/-- Claim C9, counterexample. `to_vcard` mutates the Contact it
    serializes when a photo path is set: the post-state differs from
    the input because `_embed_photo` assigns `photo_data`. -/
theorem C9_mutation_counterexample :
    (Contact.to_vcard { fn := T ("X"), photo_path := some (T ("p.jpg")) }).1 ≠
      { fn := T ("X"), photo_path := some (T ("p.jpg")) } := by decide

/-- Claim C9, amended. When no photo path is set, `to_vcard` leaves the
    serialized Contact unchanged: the mutation is confined to the
    photo-embedding step. -/
theorem C9_no_mutation_amended (c : Contact) (h : c.photo_path = none) :
    (Contact.to_vcard c).1 = c := by
  simp [Contact.to_vcard, embedStep, h]

/-- Claim C9, witness: the amended theorem at a Contact without a photo
    path. -/
theorem C9_no_mutation_witness :
    (Contact.to_vcard { fn := T ("Y") }).1 = { fn := T ("Y") } :=
  C9_no_mutation_amended _ rfl

/-- Claim C10. On backslash-free input the escape/unescape inverse law
    holds: every occurrence of `\\`, `\;`, `\,`, `\n` in the escaped
    text was produced by the escaping pass, and the sequential
    replacement passes of `unescape_text` undo them exactly. -/
theorem C10_unescape_escape (s : Text) (h : '\\' ∉ s) :
    unescape_text (escape_text s) = s :=
  unescape_escape_of_no_bs s h

/-- Claim C10, witness: the inverse law at a concrete input containing
    a semicolon, a comma and a newline. -/
theorem C10_unescape_escape_witness :
    unescape_text (escape_text (T ("a;b,c\nd"))) = T ("a;b,c\nd") :=
  C10_unescape_escape (T ("a;b,c\nd")) (by decide)
